import Mathlib

/-!
Verification of the StoryMaster core subsystems: the versioned document
store (`story-file-store.ts`), the naive line diff, the LLM provider
gateway (`llm-provider.ts`), the agent-definition loader and prompt
builder (`orchestration-service.ts`), and the usage monitor
(`usage-monitor.ts`).

Modelling conventions:
- JavaScript `Map` objects become insertion-ordered association lists
  (`mapGet` / `mapSet` / `mapRemove` mirror `get` / `set` / `delete`).
- `generateId()` (timestamp + random, assumed unique in the source) is
  modelled by a fresh counter threaded through the store state; document
  and version ids are naturals.
- `Date.now()` / `new Date()` timestamps are naturals (milliseconds);
  where the source takes "now" implicitly it becomes an explicit argument.
- IEEE floating point quantities (costs, latencies, temperatures) are
  modelled as exact rationals.
- Methods that `throw` return `Except String`; the thrown message is the
  source's message text.
-/

namespace StoryMaster

/-! ### String primitives

Structurally recursive models of the JavaScript string operations the
source uses (`split`, `trim`, `startsWith`/`endsWith`, substring search),
over the character list of a `String`.  (Lean's own `String.splitOn` and
`String.trim` use well-founded position recursion, which the kernel
cannot evaluate on concrete inputs; these models compute.) -/
/-- Model of `str.split(sep)` for a one-character separator: every occurrence of
`sep` ends a field, so a trailing separator yields a trailing empty
field and the empty string yields one empty field. -/
def splitOnCharList (sep : Char) : List Char → List (List Char)
  | [] => [[]]
  | c :: rest =>
    let r := splitOnCharList sep rest
    if c = sep then [] :: r
    else
      match r with
      | [] => [[c]]
      | h :: t => (c :: h) :: t

/-- Model of `content.split(sep)` on strings, one-character separator. -/
def jsSplitChar (s : String) (sep : Char) : List String :=
  (splitOnCharList sep s.data).map (fun l => String.mk l)

/-- Whitespace for `trim` / `\s`: space, tab, carriage return, newline. -/
def isJsWhitespace (c : Char) : Bool :=
  c = ' ' || c = '\t' || c = '\r' || c = '\n'

/-- Model of `str.trim()`: strip leading and trailing whitespace. -/
def jsTrimList (l : List Char) : List Char :=
  ((l.dropWhile isJsWhitespace).reverse.dropWhile isJsWhitespace).reverse

/-- Model of `str.trim()` on strings. -/
def jsTrim (s : String) : String := String.mk (jsTrimList s.data)

/-- The suffix right after the first occurrence of `sep` in `l`, or
`none` when `sep` does not occur. -/
def afterFirstSub (sep : List Char) : List Char → Option (List Char)
  | [] => if sep = [] then some [] else none
  | c :: rest =>
    if sep.isPrefixOf (c :: rest) then some ((c :: rest).drop sep.length)
    else afterFirstSub sep rest

/-- The prefix of `l` before the first occurrence of `sep`, or `none`
when `sep` does not occur. -/
def beforeFirstSub (sep : List Char) : List Char → Option (List Char)
  | [] => if sep = [] then some [] else none
  | c :: rest =>
    if sep.isPrefixOf (c :: rest) then some []
    else (beforeFirstSub sep rest).map (fun p => c :: p)

/-- Model of `Array.prototype.join(sep)`. -/
def jsJoin (sep : String) : List String → String
  | [] => ""
  | [x] => x
  | x :: rest => x ++ sep ++ jsJoin sep rest

/-- Model of `str.startsWith(p)`. -/
def jsStartsWith (s p : String) : Bool := p.data.isPrefixOf s.data

/-- Model of `str.endsWith(p)`. -/
def jsEndsWith (s p : String) : Bool := p.data.isSuffixOf s.data

/-- Association-list model of a JavaScript `Map`: `get`. -/
def mapGet {κ α : Type} [DecidableEq κ] (m : List (κ × α)) (k : κ) : Option α :=
  match m with
  | [] => none
  | (k', v) :: rest => if k' = k then some v else mapGet rest k

/-- Association-list model of `Map.set`: overwrite in place if the key is
present (JS maps keep the original insertion slot), else append. -/
def mapSet {κ α : Type} [DecidableEq κ] (m : List (κ × α)) (k : κ) (v : α) : List (κ × α) :=
  match m with
  | [] => [(k, v)]
  | (k', v') :: rest => if k' = k then (k, v) :: rest else (k', v') :: mapSet rest k v

/-- Association-list model of `Map.delete` (without the returned Bool). -/
def mapRemove {κ α : Type} [DecidableEq κ] (m : List (κ × α)) (k : κ) : List (κ × α) :=
  match m with
  | [] => []
  | (k', v) :: rest => if k' = k then mapRemove rest k else (k', v) :: mapRemove rest k

/-- Values stored in the loosely typed `Record<string, any>` metadata maps:
the uses in the store are strings and numbers (`revertedFrom`). -/
inductive MetaVal : Type
  | natV (n : Nat)
  | strV (s : String)
  deriving DecidableEq, Repr

/-- JavaScript object spread, as used in
`{ ...storyFile.metadata, ...metadata }`: fields of the second object
override fields of the first, keeping the first object's slot order. -/
def jsSpread (a b : List (String × MetaVal)) : List (String × MetaVal) :=
  b.foldl (fun acc kv => mapSet acc kv.1 kv.2) a

/-- Model of `StoryFile` (orchestration-service.ts, lines 42-49).  `id` is modelled
as a natural (see header note on `generateId`). -/
structure StoryFile : Type where
  id : Nat
  projectId : String
  filename : String
  content : String
  version : Nat
  metadata : List (String × MetaVal)
  deriving DecidableEq, Repr

/-- Model of `StoryFileVersion` (story-file-store.ts, lines 3-12).  `createdAt` is
the store's logical clock value at creation. -/
structure StoryFileVersion : Type where
  id : Nat
  storyFileId : Nat
  version : Nat
  content : String
  metadata : List (String × MetaVal)
  createdAt : Nat
  createdBy : String
  commitMessage : String
  deriving DecidableEq, Repr

/-- Change type of a diff entry: `'add' | 'delete' | 'modify'`. -/
inductive ChangeType : Type
  | add
  | delete
  | modify
  deriving DecidableEq, Repr

/-- One entry of `StoryFileDiff.changes`. -/
structure DiffChange : Type where
  type : ChangeType
  lineNumber : Nat
  content : String
  deriving DecidableEq, Repr

/-- Model of `StoryFileDiff` (story-file-store.ts, lines 14-22). -/
structure StoryFileDiff : Type where
  additions : Nat
  deletions : Nat
  changes : List DiffChange
  deriving DecidableEq, Repr

/-- The private state of a `StoryFileStore` instance: the two maps plus
the fresh-id counter modelling `generateId` (which the source builds from
`Date.now()` + randomness, assumed unique). -/
structure StoryFileStore : Type where
  storyFiles : List (Nat × StoryFile)
  versions : List (Nat × List StoryFileVersion)
  nextId : Nat
  deriving DecidableEq, Repr

/-- A newly constructed `StoryFileStore` (both maps empty). -/
def emptyStore : StoryFileStore := ⟨[], [], 0⟩

/-- Model of `createVersion` (story-file-store.ts, lines 136-155): snapshot the
current content/metadata/version of `storyFile` and append it to the
document's version list.  `createdAt` is modelled by the id counter value
(unique and increasing, standing in for `new Date()`). -/
def createVersion (st : StoryFileStore) (storyFile : StoryFile)
    (commitMessage createdBy : String) : StoryFileStore :=
  let version : StoryFileVersion :=
    { id := st.nextId
      storyFileId := storyFile.id
      version := storyFile.version
      content := storyFile.content
      metadata := storyFile.metadata
      createdAt := st.nextId
      createdBy := createdBy
      commitMessage := commitMessage }
  let versionList := (mapGet st.versions storyFile.id).getD []
  { st with
      versions := mapSet st.versions storyFile.id (versionList ++ [version])
      nextId := st.nextId + 1 }

/-- Model of `createStoryFile` (story-file-store.ts, lines 28-51): assign a fresh
id, store the document at version 1, and write the initial version record
with commit message "Initial creation". -/
def createStoryFile (st : StoryFileStore) (projectId filename : String)
    (initialContent : String) (metadata : List (String × MetaVal))
    (createdBy : String) : StoryFileStore × StoryFile :=
  let id := st.nextId
  let storyFile : StoryFile :=
    { id := id
      projectId := projectId
      filename := filename
      content := initialContent
      version := 1
      metadata := metadata }
  let st1 : StoryFileStore :=
    { st with storyFiles := mapSet st.storyFiles id storyFile, nextId := st.nextId + 1 }
  (createVersion st1 storyFile "Initial creation" createdBy, storyFile)

/-- Model of `updateStoryFile` (story-file-store.ts, lines 53-77): throw if the
document is missing; return it unchanged if `newContent` equals the
current content; otherwise bump the version, shallow-merge the metadata
patch, and append a version snapshot. -/
def updateStoryFile (st : StoryFileStore) (storyFileId : Nat)
    (newContent commitMessage updatedBy : String)
    (metadata : List (String × MetaVal)) :
    Except String (StoryFileStore × StoryFile) :=
  match mapGet st.storyFiles storyFileId with
  | none => .error ("Story file " ++ toString storyFileId ++ " not found")
  | some storyFile =>
    if storyFile.content = newContent then
      .ok (st, storyFile)
    else
      let storyFile' : StoryFile :=
        { storyFile with
            content := newContent
            version := storyFile.version + 1
            metadata := jsSpread storyFile.metadata metadata }
      let st1 : StoryFileStore :=
        { st with storyFiles := mapSet st.storyFiles storyFileId storyFile' }
      .ok (createVersion st1 storyFile' commitMessage updatedBy, storyFile')

/-- Model of `getStoryFile` (story-file-store.ts, lines 79-81). -/
def getStoryFile (st : StoryFileStore) (storyFileId : Nat) : Option StoryFile :=
  mapGet st.storyFiles storyFileId

/-- Model of `getStoryFilesByProject` (story-file-store.ts, lines 83-85). -/
def getStoryFilesByProject (st : StoryFileStore) (projectId : String) : List StoryFile :=
  (st.storyFiles.map Prod.snd).filter (fun sf => decide (sf.projectId = projectId))

/-- Model of `getVersions` (story-file-store.ts, lines 87-89). -/
def getVersions (st : StoryFileStore) (storyFileId : Nat) : List StoryFileVersion :=
  (mapGet st.versions storyFileId).getD []

/-- Model of `getVersion` (story-file-store.ts, lines 91-94). -/
def getVersion (st : StoryFileStore) (storyFileId : Nat) (version : Nat) :
    Option StoryFileVersion :=
  ((mapGet st.versions storyFileId).getD []).find? (fun v => decide (v.version = version))

/-- Model of `revertToVersion` (story-file-store.ts, lines 96-114): throw if the
target version is missing, otherwise run a normal update with the target
version's content, tagging the metadata patch with `revertedFrom`. -/
def revertToVersion (st : StoryFileStore) (storyFileId targetVersion : Nat)
    (commitMessage revertedBy : String) :
    Except String (StoryFileStore × StoryFile) :=
  match getVersion st storyFileId targetVersion with
  | none =>
      .error ("Version " ++ toString targetVersion ++ " not found for story file " ++
        toString storyFileId)
  | some targetVersionData =>
      updateStoryFile st storyFileId targetVersionData.content commitMessage revertedBy
        [("revertedFrom", MetaVal.natV targetVersion)]

/-- The per-index classification of `computeSimpleDiff`'s loop body
(story-file-store.ts, lines 168-183), acting on the optional old and new
lines at one index (`none` models the JS `undefined` read past the end of
the array).  Produces the pushed change (if any) together with the
increments applied to the `additions` and `deletions` counters. -/
def diffLine (oldLine newLine : Option String) (i : Nat) :
    Option DiffChange × Nat × Nat :=
  match oldLine, newLine with
  | none, some nl => (some ⟨ChangeType.add, i + 1, nl⟩, 1, 0)
  | some ol, none => (some ⟨ChangeType.delete, i + 1, ol⟩, 0, 1)
  | some ol, some nl =>
      if ol ≠ nl then (some ⟨ChangeType.modify, i + 1, nl⟩, 1, 1) else (none, 0, 0)
  | none, none => (none, 0, 0)

/-- Fold one loop iteration's outcome into the accumulated diff: push the
change (if one was produced) and add the counter increments. -/
def applyDiffLine (acc : StoryFileDiff) (r : Option DiffChange × Nat × Nat) :
    StoryFileDiff :=
  match r with
  | (some c, da, dd) =>
      { additions := acc.additions + da
        deletions := acc.deletions + dd
        changes := acc.changes ++ [c] }
  | (none, _, _) => acc

/-- Model of `computeSimpleDiff` (story-file-store.ts, lines 157-186): split both
contents on `'\n'` and walk indices `0 .. max(len) - 1`, accumulating
changes and counters exactly as the source loop does. -/
def computeSimpleDiff (oldContent newContent : String) : StoryFileDiff :=
  let oldLines := jsSplitChar oldContent '\n'
  let newLines := jsSplitChar newContent '\n'
  let maxLines := max oldLines.length newLines.length
  (List.range maxLines).foldl
    (fun acc i => applyDiffLine acc (diffLine oldLines[i]? newLines[i]? i))
    ⟨0, 0, []⟩

/-- Model of `getDiff` (story-file-store.ts, lines 116-126). -/
def getDiff (st : StoryFileStore) (storyFileId fromVersion toVersion : Nat) :
    Except String StoryFileDiff :=
  match getVersion st storyFileId fromVersion, getVersion st storyFileId toVersion with
  | some fromVersionData, some toVersionData =>
      .ok (computeSimpleDiff fromVersionData.content toVersionData.content)
  | _, _ => .error "One or both versions not found"

/-- Model of `deleteStoryFile` (story-file-store.ts, lines 128-134): remove the
document; if it existed, also remove its version history. -/
def deleteStoryFile (st : StoryFileStore) (storyFileId : Nat) :
    StoryFileStore × Bool :=
  if (mapGet st.storyFiles storyFileId).isSome then
    ({ st with
        storyFiles := mapRemove st.storyFiles storyFileId
        versions := mapRemove st.versions storyFileId }, true)
  else (st, false)

/-! ### Store traces

The mutating public operations of `StoryFileStore`, as a step function:
this lets invariants be stated over every state reachable from a freshly
constructed store.  An operation that throws leaves the state unchanged
(all throws in the source happen before any mutation). -/
/-- One mutating call on a `StoryFileStore`. -/
inductive StoreOp : Type
  | create (projectId filename initialContent : String)
      (metadata : List (String × MetaVal)) (createdBy : String)
  | update (storyFileId : Nat) (newContent commitMessage updatedBy : String)
      (metadata : List (String × MetaVal))
  | revert (storyFileId targetVersion : Nat) (commitMessage revertedBy : String)
  | delete (storyFileId : Nat)

/-- Apply one operation; a thrown error leaves the state as it was. -/
def applyOp (st : StoryFileStore) (op : StoreOp) : StoryFileStore :=
  match op with
  | .create p f c m b => (createStoryFile st p f c m b).1
  | .update id c msg b m =>
      match updateStoryFile st id c msg b m with
      | .ok (st', _) => st'
      | .error _ => st
  | .revert id v msg b =>
      match revertToVersion st id v msg b with
      | .ok (st', _) => st'
      | .error _ => st
  | .delete id => (deleteStoryFile st id).1

/-- Apply a list of operations in order. -/
def applyOps (st : StoryFileStore) (ops : List StoreOp) : StoryFileStore :=
  ops.foldl applyOp st

/-- States reachable from a freshly constructed store. -/
def Reachable (st : StoryFileStore) : Prop :=
  ∃ ops : List StoreOp, applyOps emptyStore ops = st

/-- The store's internal consistency invariant, maintained by every
operation (proved below): stored documents carry their own key as `id`,
their version list carries exactly the version numbers `1, …, version` in
creation order, all version lists belong to live documents, all live keys
are below the fresh-id counter, consecutive version records differ in
content, and the newest version record snapshots the current content. -/
structure StoreInv (st : StoryFileStore) : Prop where
  idMatch : ∀ id sf, mapGet st.storyFiles id = some sf → sf.id = id
  versionNums : ∀ id sf, mapGet st.storyFiles id = some sf →
    (getVersions st id).map StoryFileVersion.version = List.range' 1 sf.version
  versionsLive : ∀ id, (mapGet st.versions id).isSome → (mapGet st.storyFiles id).isSome
  freshFiles : ∀ id, (mapGet st.storyFiles id).isSome → id < st.nextId
  freshVersions : ∀ id, (mapGet st.versions id).isSome → id < st.nextId
  lastContent : ∀ id sf, mapGet st.storyFiles id = some sf →
    ((getVersions st id).map StoryFileVersion.content).getLast? = some sf.content
  contentsChain : ∀ id,
    List.Chain' (fun a b => a ≠ b) ((getVersions st id).map StoryFileVersion.content)

/-- A sequence of `updateStoryFile` calls on one document (exceptions, if
any, leave the state unchanged as in the source). -/
def updateMany (st : StoryFileStore) (id : Nat) (cs : List String) : StoryFileStore :=
  cs.foldl (fun s c => applyOp s (StoreOp.update id c "Updated content" "system" [])) st

/-! ### LLM Provider Gateway (llm-provider.ts)

A provider's network behaviour is abstract (the source network calls are
unimplemented stubs that throw, and the spec calls for injectable fakes),
so a provider is modelled as a function from prompt and options to either
a response or a thrown error message. -/
/-- Model of `LLMOptions` (llm-provider.ts, lines 7-12) together with the
`preferredProvider` extension accepted by the manager's `generateText`. -/
structure LLMOptions : Type where
  maxTokens : Option Nat := none
  temperature : Option ℚ := none
  model : Option String := none
  costPriority : Option String := none
  preferredProvider : Option String := none

/-- Metadata of an `LLMResponse` (llm-provider.ts, lines 18-22). -/
structure LLMResponseMetadata : Type where
  model : String
  provider : String
  latency : ℚ

/-- Model of `LLMResponse` (llm-provider.ts, lines 14-23). -/
structure LLMResponse : Type where
  text : String
  tokensUsed : Nat
  cost : ℚ
  metadata : LLMResponseMetadata

/-- The shared `estimateTokens` heuristic, `Math.ceil(text.length / 4)`.
`text.length` counts characters (UTF-16 units in JS; identical on the
ASCII inputs of interest). -/
def estimateTokensHeuristic (text : String) : Nat := (text.length + 3) / 4

/-- Model of `OpenAIProvider.generateText`: `callOpenAI` throws before any other
observable behaviour ("OpenAI API call not implemented"). -/
def openAIStub : String → LLMOptions → Except String LLMResponse :=
  fun _ _ => Except.error "OpenAI API call not implemented"

/-- Model of `AnthropicProvider.generateText`: throws "Anthropic API call not implemented". -/
def anthropicStub : String → LLMOptions → Except String LLMResponse :=
  fun _ _ => Except.error "Anthropic API call not implemented"

/-- Model of `GeminiProvider.generateText`: throws "Gemini API call not implemented". -/
def geminiStub : String → LLMOptions → Except String LLMResponse :=
  fun _ _ => Except.error "Gemini API call not implemented"

/-- The manager's private state: the provider registry and the fixed
fallback order. -/
structure LLMProviderManager : Type where
  providers : List (String × (String → LLMOptions → Except String LLMResponse))
  fallbackOrder : List String

/-- The `LLMProviderManager` constructor: register Gemini, OpenAI and
Anthropic (with the given behaviours) and fix the fallback order. -/
def mkLLMProviderManager
    (gemini openai anthropic : String → LLMOptions → Except String LLMResponse) :
    LLMProviderManager :=
  { providers := [("Gemini", gemini), ("OpenAI", openai), ("Anthropic", anthropic)]
    fallbackOrder := ["Gemini", "OpenAI", "Anthropic"] }

/-- The manager exactly as built by the source constructor: all three
registered behaviours are the unimplemented network stubs. -/
def defaultLLMProviderManager : LLMProviderManager :=
  mkLLMProviderManager geminiStub openAIStub anthropicStub

/-- The `providersToTry` list of `generateText` (llm-provider.ts,
lines 199-202): the preferred provider (when given) followed by the
fallback order without it; otherwise just the fallback order. -/
def providersToTry (mgr : LLMProviderManager) (preferredProvider : Option String) :
    List String :=
  match preferredProvider with
  | some p => p :: mgr.fallbackOrder.filter (fun q => decide (q ≠ p))
  | none => mgr.fallbackOrder

/-- The provider loop of `generateText` (llm-provider.ts, lines 204-216),
instrumented with the list of providers actually attempted: unregistered
names are skipped, a success returns immediately, a failure logs and
falls through, and an exhausted list throws "All LLM providers failed". -/
def generateTextGo (mgr : LLMProviderManager) (prompt : String)
    (options : LLMOptions) :
    List String → List String → List String × Except String LLMResponse
  | [], attempted => (attempted, Except.error "All LLM providers failed")
  | name :: rest, attempted =>
    match mapGet mgr.providers name with
    | none => generateTextGo mgr prompt options rest attempted
    | some provider =>
      match provider prompt options with
      | Except.ok r => (attempted ++ [name], Except.ok r)
      | Except.error _ => generateTextGo mgr prompt options rest (attempted ++ [name])

/-- Model of `generateText` plus the attempted-provider trace. -/
def generateTextTrace (mgr : LLMProviderManager) (prompt : String)
    (options : LLMOptions) : List String × Except String LLMResponse :=
  generateTextGo mgr prompt options (providersToTry mgr options.preferredProvider) []

/-- Model of `LLMProviderManager.generateText` (llm-provider.ts, lines 199-217). -/
def generateText (mgr : LLMProviderManager) (prompt : String)
    (options : LLMOptions) : Except String LLMResponse :=
  (generateTextTrace mgr prompt options).2

/-- The providers attempted when walking `l`: registered names up to and
including the first success. -/
def attemptedOf (mgr : LLMProviderManager) (prompt : String) (options : LLMOptions) :
    List String → List String
  | [] => []
  | name :: rest =>
    match mapGet mgr.providers name with
    | none => attemptedOf mgr prompt options rest
    | some provider =>
      match provider prompt options with
      | Except.ok _ => [name]
      | Except.error _ => name :: attemptedOf mgr prompt options rest

/-- The outcome of walking `l`: the first registered success, else the
all-providers-failed error. -/
def resultOf (mgr : LLMProviderManager) (prompt : String) (options : LLMOptions) :
    List String → Except String LLMResponse
  | [] => Except.error "All LLM providers failed"
  | name :: rest =>
    match mapGet mgr.providers name with
    | none => resultOf mgr prompt options rest
    | some provider =>
      match provider prompt options with
      | Except.ok r => Except.ok r
      | Except.error _ => resultOf mgr prompt options rest

/-! ### Agent Definition Loader (orchestration-service.ts)

The loader reads a directory of Markdown files; the directory is modelled
as a list of `(filename, contents)` pairs (the `fs` reads are the only
effects, and a file's read result is its contents).  The home-grown YAML
subset parser is embedded including its reference-aliasing behaviour:
`currentObject` is modelled as a path into the result object, or the
JavaScript `undefined` / string-primitive values it can degenerate to, on
which a property assignment throws a `TypeError` (caught by
`parseAgentFile`, which then returns `null`). -/
/-- A parsed JavaScript value produced by `parseSimpleYAML`: a string
scalar or a nested object (insertion-ordered fields). -/
inductive YVal : Type
  | str (s : String)
  | obj (fields : List (String × YVal))

/-- What `currentObject` can reference: a live path into `result`, the
JS `undefined`, or a string primitive. -/
inductive JSRef : Type
  | path (p : List String)
  | undefVal
  | primVal

/-- Read the value at a key path below the root object (`undefined` is
`none`; reading a property of a string yields `undefined`). -/
def objGetPath (fields : List (String × YVal)) : List String → Option YVal
  | [] => some (YVal.obj fields)
  | k :: rest =>
    match mapGet fields k with
    | none => none
    | some (YVal.str s) => if rest.isEmpty then some (YVal.str s) else none
    | some (YVal.obj inner) => objGetPath inner rest

/-- Assign `key := v` on the object at path `p` below the root; `none`
models a `TypeError` (path does not lead to an object). -/
def objSetPath (fields : List (String × YVal)) (p : List String) (key : String)
    (v : YVal) : Option (List (String × YVal)) :=
  match p with
  | [] => some (mapSet fields key v)
  | k :: rest =>
    match mapGet fields k with
    | some (YVal.obj inner) =>
        (objSetPath inner rest key v).map (fun inner' => mapSet fields k (YVal.obj inner'))
    | _ => none

/-- The loop state of `parseSimpleYAML` (orchestration-service.ts,
lines 104-136). -/
structure YamlState : Type where
  result : List (String × YVal)
  currentSection : String
  currentObject : JSRef

/-- One iteration of the `parseSimpleYAML` line loop.  An `error` models
a thrown `TypeError` (assignment on `undefined` or a string primitive —
the module is strict-mode JS). -/
def parseYamlLine (st : YamlState) (line : String) : Except String YamlState :=
  let trimmed := jsTrim line
  if trimmed = "" || jsStartsWith trimmed "#" then Except.ok st
  else if jsEndsWith trimmed ":" then
    let key := String.mk trimmed.data.dropLast
    if st.currentSection ≠ "" then
      match st.currentObject with
      | JSRef.path p =>
        match objSetPath st.result p key (YVal.obj []) with
        | none => Except.error "TypeError"
        | some result' =>
          let newRef :=
            match objGetPath result' [st.currentSection, key] with
            | some (YVal.obj _) => JSRef.path [st.currentSection, key]
            | some (YVal.str _) => JSRef.primVal
            | none => JSRef.undefVal
          Except.ok ⟨result', st.currentSection, newRef⟩
      | _ => Except.error "TypeError"
    else
      Except.ok ⟨mapSet st.result key (YVal.obj []), key, JSRef.path [key]⟩
  else if trimmed.data.contains ':' then
    let parts := jsSplitChar trimmed ':'
    let key := parts.headD ""
    let value := jsTrim (jsJoin ":" parts.tail)
    let value' :=
      if jsStartsWith value "\"" && jsEndsWith value "\"" then
        String.mk value.data.tail.dropLast
      else value
    match st.currentObject with
    | JSRef.path p =>
      match objSetPath st.result p (jsTrim key) (YVal.str value') with
      | none => Except.error "TypeError"
      | some result' => Except.ok ⟨result', st.currentSection, st.currentObject⟩
    | _ => Except.error "TypeError"
  else Except.ok st

/-- Model of `parseSimpleYAML` (orchestration-service.ts, lines 104-136): fold the
line loop from the empty result with `currentSection = ''` and
`currentObject = result`. -/
def parseSimpleYAML (yaml : String) : Except String (List (String × YVal)) :=
  ((jsSplitChar yaml '\n').foldlM parseYamlLine ⟨[], "", JSRef.path []⟩).map
    (fun st => st.result)

/-- The `content.match(/```yaml\s*([\s\S]*?)\s*```/)` capture
(orchestration-service.ts, line 82): the text between the first
"```yaml" fence and the next "```" fence, trimmed of surrounding
whitespace; `none` when no such block exists. -/
def extractYamlBlock (content : String) : Option String :=
  match afterFirstSub "```yaml".data content.data with
  | none => none
  | some afterOpen =>
    match beforeFirstSub "```".data afterOpen with
    | none => none
    | some inner => some (jsTrim (String.mk inner))

/-- Model of `persona` of a `BMADAgent` (orchestration-service.ts, lines 9-13). -/
structure Persona : Type where
  role : String
  style : String
  core_principles : List String

/-- Model of `BMADAgent` (orchestration-service.ts, lines 5-21).  `commands` and
`dependencies` keep the raw parsed fields (the source assigns whatever
the untyped parse produced). -/
structure BMADAgent : Type where
  id : String
  name : String
  title : String
  persona : Persona
  commands : List (String × YVal)
  dependencies : List (String × YVal)

/-- Model of `agentData.agent?.id || fallback`: a string scalar unless empty
(falsy) or absent.  (A structured value for one of these fields —
degenerate input the line parser can produce — is outside the model and
treated as absent.) -/
def jsStrOr (v : Option YVal) (fallback : String) : String :=
  match v with
  | some (YVal.str s) => if s = "" then fallback else s
  | _ => fallback

/-- Model of `persona` construction: the `persona` section's scalars, with the
source's `{ role: '', style: '', core_principles: [] }` defaults.  The
line-oriented parser never produces list values, so a parsed persona
carries no principles. -/
def personaOfYVal (v : Option YVal) : Persona :=
  match v with
  | some (YVal.obj fields) =>
      { role := jsStrOr (mapGet fields "role") ""
        style := jsStrOr (mapGet fields "style") ""
        core_principles := [] }
  | _ => { role := "", style := "", core_principles := [] }

/-- An object section's raw fields, or the `|| {}` default. -/
def objFieldsOr (v : Option YVal) : List (String × YVal) :=
  match v with
  | some (YVal.obj fields) => fields
  | _ => []

/-- Model of `path.basename(filePath, '.md')`. -/
def basenameNoMd (p : String) : String :=
  let base := (jsSplitChar p '/').getLastD p
  if jsEndsWith base ".md" then String.mk (base.data.take (base.data.length - 3))
  else base

/-- Model of `parseAgentFile` (orchestration-service.ts, lines 78-102): extract
the yaml block (`null` when absent), parse it (a thrown parse error is
caught: warn and return `null`), and assemble the agent record with its
defaults. -/
def parseAgentFile (filePath content : String) : Option BMADAgent :=
  match extractYamlBlock content with
  | none => none
  | some yamlContent =>
    match parseSimpleYAML yamlContent with
    | Except.error _ => none
    | Except.ok agentData =>
      let agentSec := match mapGet agentData "agent" with
        | some (YVal.obj fields) => some fields
        | _ => none
      some
        { id := jsStrOr (agentSec.bind (fun f => mapGet f "id")) (basenameNoMd filePath)
          name := jsStrOr (agentSec.bind (fun f => mapGet f "name")) ""
          title := jsStrOr (agentSec.bind (fun f => mapGet f "title")) ""
          persona := personaOfYVal (mapGet agentData "persona")
          commands := objFieldsOr (mapGet agentData "commands")
          dependencies := objFieldsOr (mapGet agentData "dependencies") }

/-- Model of `loadAgents` (orchestration-service.ts, lines 62-76): keep the `.md`
files, parse each, register the successful parses by id, and skip the
rest (a per-file failure — no yaml block, or a caught parse exception —
only skips that file). Total by construction: no exception escapes. -/
def loadAgents (files : List (String × String)) : List (String × BMADAgent) :=
  (files.filter (fun f => jsEndsWith f.1 ".md")).foldl
    (fun agents f =>
      match parseAgentFile f.1 f.2 with
      | some agent => mapSet agents agent.id agent
      | none => agents) []

/-- Model of `buildAgentPrompt` (orchestration-service.ts, lines 197-221): the
template literal over the agent's persona, the action, the context and
the flattened inputs, trimmed.  `inputs` is the entry list of the
`Record<string, any>` (entries in insertion order, values rendered). -/
def buildAgentPrompt (agent : BMADAgent) (action : String)
    (inputs : List (String × String)) (storyContext : String) : String :=
  jsTrim ("\nYou are " ++ agent.name ++ ", " ++ agent.persona.role ++ ".\n\n" ++
    agent.persona.style ++ "\n\nCore Principles:\n" ++
    jsJoin "\n" (agent.persona.core_principles.map (fun p => "- " ++ p)) ++
    "\n\nCurrent Story Context:\n" ++ storyContext ++
    "\n\nUser Request: " ++ action ++ "\n\nAdditional Inputs:\n" ++
    jsJoin "\n" (inputs.map (fun kv => kv.1 ++ ": " ++ kv.2)) ++
    "\n\nPlease provide your expert response as " ++ agent.name ++ ".\n    ")

/-! ### Usage Monitor (usage-monitor.ts) -/
/-- Model of `llmMetadata` of an `AgentSession` (orchestration-service.ts,
lines 31-37). -/
structure SessionLLMMetadata : Type where
  provider : String
  model : String
  tokensUsed : Nat
  cost : ℚ
  latency : ℚ
  deriving DecidableEq

/-- Model of `AgentSession` (orchestration-service.ts, lines 23-40); timestamps
are milliseconds. -/
structure AgentSession : Type where
  id : String
  agentId : String
  userId : String
  projectId : String
  storyFileId : String
  inputs : List (String × String)
  outputs : List (String × String)
  llmMetadata : SessionLLMMetadata
  createdAt : Nat
  updatedAt : Nat
  deriving DecidableEq

/-- The mutable counters of a `UsageMonitor` (the three collaborator
services are not consulted by the operations under verification). -/
structure UsageMonitor : Type where
  sessionMetrics : List AgentSession
  errorCount : Nat
  totalRequests : Nat
  deriving DecidableEq

/-- A freshly constructed `UsageMonitor`. -/
def emptyUsageMonitor : UsageMonitor := ⟨[], 0, 0⟩

/-- Model of `arr.slice(-n)`: the last `n` elements. -/
def jsSliceLast {α : Type} (l : List α) (n : Nat) : List α :=
  l.drop (l.length - n)

/-- Model of `recordSession` (usage-monitor.ts, lines 48-56): push the session,
count the request, and keep only the last 1000 sessions. -/
def recordSession (m : UsageMonitor) (s : AgentSession) : UsageMonitor :=
  let metrics := m.sessionMetrics ++ [s]
  { m with
      sessionMetrics := if metrics.length > 1000 then jsSliceLast metrics 1000 else metrics
      totalRequests := m.totalRequests + 1 }

/-- Model of `recordError` (usage-monitor.ts, lines 58-60). -/
def recordError (m : UsageMonitor) : UsageMonitor :=
  { m with errorCount := m.errorCount + 1 }

/-- A sequence of `recordSession` calls. -/
def recordMany (m : UsageMonitor) (ss : List AgentSession) : UsageMonitor :=
  ss.foldl recordSession m

/-- Stable insertion sort: the model of `Array.prototype.sort` with a
consistent comparator (V8's sort is stable).  `before x y` decides
whether `x`, originally earlier, stays before `y`. -/
def jsStableInsert {α : Type} (before : α → α → Bool) (x : α) : List α → List α
  | [] => [x]
  | y :: ys => if before x y then x :: y :: ys else y :: jsStableInsert before x ys

/-- Stable sort (insertion sort, processing from the left). -/
def jsSortBy {α : Type} (before : α → α → Bool) : List α → List α
  | [] => []
  | x :: xs => jsStableInsert before x (jsSortBy before xs)

/-- One entry of `popularAgents`. -/
structure AgentUsage : Type where
  agentId : String
  usageCount : Nat
  deriving DecidableEq

/-- The `responseTime` component of `UsageMetrics`. -/
structure ResponseTimeStats : Type where
  average : ℚ
  p95 : ℚ
  p99 : ℚ
  deriving DecidableEq

/-- Model of `UsageMetrics` (usage-monitor.ts, lines 5-18). -/
structure UsageMetrics : Type where
  totalUsers : Nat
  activeUsers : Nat
  totalTokensUsed : Nat
  totalCost : ℚ
  averageSessionLength : ℚ
  popularAgents : List AgentUsage
  errorRate : ℚ
  responseTime : ResponseTimeStats
  deriving DecidableEq

/-- Model of `getGlobalMetrics` (usage-monitor.ts, lines 62-110).  `new Date()` is
the explicit `now` argument (milliseconds); session timestamps below the
24-hour cutoff are filtered out of every session-derived aggregate, and
`errorRate` is computed from the process-lifetime counters.  Number
arithmetic is over exact rationals; `floor(len * 0.95)` is `len * 95 / 100`. -/
def getGlobalMetrics (m : UsageMonitor) (now : Nat) : UsageMetrics :=
  let recentSessions := m.sessionMetrics.filter
    (fun s => decide ((s.createdAt : Int) ≥ (now : Int) - 24 * 60 * 60 * 1000))
  let totalTokensUsed := recentSessions.foldl (fun sum s => sum + s.llmMetadata.tokensUsed) 0
  let totalCost : ℚ := recentSessions.foldl (fun sum s => sum + s.llmMetadata.cost) 0
  let activeUsers := ((recentSessions.map (fun s => s.userId)).dedup).length
  let agentUsage := recentSessions.foldl
    (fun counts s => mapSet counts s.agentId ((mapGet counts s.agentId).getD 0 + 1))
    ([] : List (String × Nat))
  let popularAgents := (jsSortBy (fun a b => decide (b.usageCount ≤ a.usageCount))
    (agentUsage.map (fun kv => AgentUsage.mk kv.1 kv.2))).take 5
  let responseTimes := jsSortBy (fun a b => decide (a ≤ b))
    (recentSessions.map (fun s => s.llmMetadata.latency))
  let averageResponseTime : ℚ :=
    if responseTimes.length > 0 then
      (responseTimes.foldl (fun sum t => sum + t) 0) / (responseTimes.length : ℚ)
    else 0
  let p95Index := responseTimes.length * 95 / 100
  let p99Index := responseTimes.length * 99 / 100
  { totalUsers := 150
    activeUsers := activeUsers
    totalTokensUsed := totalTokensUsed
    totalCost := totalCost
    averageSessionLength := averageResponseTime
    popularAgents := popularAgents
    errorRate :=
      if m.totalRequests > 0 then
        ((m.errorCount : ℚ) / (m.totalRequests : ℚ)) * 100
      else 0
    responseTime :=
      { average := averageResponseTime
        p95 := (responseTimes[p95Index]?).getD 0
        p99 := (responseTimes[p99Index]?).getD 0 } }

/-! ### Lemmas and claim theorems -/

@[simp] theorem mapGet_nil {κ α : Type} [DecidableEq κ] (k : κ) :
    mapGet ([] : List (κ × α)) k = none := rfl

@[simp] theorem mapGet_mapSet_self {κ α : Type} [DecidableEq κ]
    (m : List (κ × α)) (k : κ) (v : α) : mapGet (mapSet m k v) k = some v := by
  induction m with
  | nil => simp [mapSet, mapGet]
  | cons p rest ih =>
    by_cases h : p.1 = k
    · simp [mapSet, mapGet, h]
    · simp [mapSet, mapGet, h, ih]

@[simp] theorem mapGet_mapSet_ne {κ α : Type} [DecidableEq κ]
    (m : List (κ × α)) (k k' : κ) (v : α) (h : k' ≠ k) :
    mapGet (mapSet m k v) k' = mapGet m k' := by
  induction m with
  | nil => simp [mapSet, mapGet, Ne.symm h]
  | cons p rest ih =>
    by_cases hp : p.1 = k
    · subst hp
      simp [mapSet, mapGet, Ne.symm h, h]
    · simp only [mapSet, if_neg hp]
      by_cases hp' : p.1 = k'
      · simp [mapGet, hp']
      · simp [mapGet, hp', ih]

@[simp] theorem mapGet_mapRemove_self {κ α : Type} [DecidableEq κ]
    (m : List (κ × α)) (k : κ) : mapGet (mapRemove m k) k = none := by
  induction m with
  | nil => rfl
  | cons p rest ih =>
    by_cases h : p.1 = k
    · simpa [mapRemove, h] using ih
    · simpa [mapRemove, mapGet, h] using ih

@[simp] theorem mapGet_mapRemove_ne {κ α : Type} [DecidableEq κ]
    (m : List (κ × α)) (k k' : κ) (h : k' ≠ k) :
    mapGet (mapRemove m k) k' = mapGet m k' := by
  induction m with
  | nil => rfl
  | cons p rest ih =>
    by_cases hp : p.1 = k
    · subst hp
      have hk : p.1 ≠ k' := fun hh => h hh.symm
      simp [mapRemove, mapGet, hk, ih]
    · by_cases hp' : p.1 = k'
      · subst hp'
        simp [mapRemove, mapGet, hp, h]
      · simp [mapRemove, mapGet, hp, hp', ih]

theorem range'_snoc (s n : Nat) : List.range' s (n + 1) = List.range' s n ++ [s + n] := by
  induction n generalizing s with
  | zero => simp [List.range']
  | succ k ih =>
    rw [List.range'_succ, ih (s + 1), List.range'_succ]
    simp [Nat.add_assoc, Nat.add_comm 1 k]

/-- The state produced by `createStoryFile`, written out explicitly. -/
theorem createStoryFile_fst (st : StoryFileStore) (p f c : String)
    (m : List (String × MetaVal)) (b : String) :
    (createStoryFile st p f c m b).1 =
      { storyFiles := mapSet st.storyFiles st.nextId ⟨st.nextId, p, f, c, 1, m⟩
        versions := mapSet st.versions st.nextId
          (((mapGet st.versions st.nextId).getD []) ++
            [⟨st.nextId + 1, st.nextId, 1, c, m, st.nextId + 1, b, "Initial creation"⟩])
        nextId := st.nextId + 2 } := rfl

theorem createStoryFile_snd (st : StoryFileStore) (p f c : String)
    (m : List (String × MetaVal)) (b : String) :
    (createStoryFile st p f c m b).2 = ⟨st.nextId, p, f, c, 1, m⟩ := rfl

/-- Model of `updateStoryFile` on a missing document throws. -/
theorem updateStoryFile_missing (st : StoryFileStore) (id : Nat)
    (c msg b : String) (m : List (String × MetaVal))
    (hsf : mapGet st.storyFiles id = none) :
    updateStoryFile st id c msg b m =
      Except.error ("Story file " ++ toString id ++ " not found") := by
  simp [updateStoryFile, hsf]

/-- Model of `updateStoryFile` with unchanged content is a no-op. -/
theorem updateStoryFile_noop (st : StoryFileStore) (id : Nat)
    (c msg b : String) (m : List (String × MetaVal)) (sf : StoryFile)
    (hsf : mapGet st.storyFiles id = some sf) (hc : sf.content = c) :
    updateStoryFile st id c msg b m = Except.ok (st, sf) := by
  simp [updateStoryFile, hsf, hc]

/-- Model of `updateStoryFile` with changed content, with the result state written
out explicitly. -/
theorem updateStoryFile_changed (st : StoryFileStore) (id : Nat)
    (c msg b : String) (m : List (String × MetaVal)) (sf : StoryFile)
    (hsf : mapGet st.storyFiles id = some sf) (hc : ¬ sf.content = c) :
    updateStoryFile st id c msg b m =
      Except.ok
        ({ storyFiles := mapSet st.storyFiles id
              { sf with content := c, version := sf.version + 1
                        metadata := jsSpread sf.metadata m }
           versions := mapSet st.versions sf.id
              (((mapGet st.versions sf.id).getD []) ++
                [⟨st.nextId, sf.id, sf.version + 1, c, jsSpread sf.metadata m,
                  st.nextId, b, msg⟩])
           nextId := st.nextId + 1 },
         { sf with content := c, version := sf.version + 1
                   metadata := jsSpread sf.metadata m }) := by
  simp [updateStoryFile, hsf, hc, createVersion]

/-- Model of `StoreInv` holds for a freshly constructed store. -/
theorem inv_empty : StoreInv emptyStore := by
  constructor <;> intro id <;> simp [emptyStore, getVersions, mapGet]

theorem inv_createStoryFile (st : StoryFileStore) (p f c : String)
    (m : List (String × MetaVal)) (b : String) (inv : StoreInv st) :
    StoreInv (createStoryFile st p f c m b).1 := by
  have hnofile : mapGet st.storyFiles st.nextId = none := by
    cases h : mapGet st.storyFiles st.nextId with
    | none => rfl
    | some sf => exact absurd (inv.freshFiles st.nextId (by simp [h])) (by omega)
  have hnover : mapGet st.versions st.nextId = none := by
    cases h : mapGet st.versions st.nextId with
    | none => rfl
    | some l => exact absurd (inv.freshVersions st.nextId (by simp [h])) (by omega)
  rw [createStoryFile_fst]
  constructor
  · intro i sf hi
    by_cases h : i = st.nextId
    · subst h
      rw [mapGet_mapSet_self] at hi
      cases hi
      rfl
    · rw [mapGet_mapSet_ne _ _ _ _ h] at hi
      exact inv.idMatch i sf hi
  · intro i sf hi
    by_cases h : i = st.nextId
    · subst h
      rw [mapGet_mapSet_self] at hi
      cases hi
      simp [getVersions, hnover, List.range']
    · rw [mapGet_mapSet_ne _ _ _ _ h] at hi
      simpa [getVersions, mapGet_mapSet_ne _ _ _ _ h] using inv.versionNums i sf hi
  · intro i hi
    by_cases h : i = st.nextId
    · subst h
      simp
    · rw [mapGet_mapSet_ne _ _ _ _ h] at hi ⊢
      exact inv.versionsLive i hi
  · intro i hi
    show i < st.nextId + 2
    by_cases h : i = st.nextId
    · omega
    · rw [mapGet_mapSet_ne _ _ _ _ h] at hi
      have := inv.freshFiles i hi
      omega
  · intro i hi
    show i < st.nextId + 2
    by_cases h : i = st.nextId
    · omega
    · rw [mapGet_mapSet_ne _ _ _ _ h] at hi
      have := inv.freshVersions i hi
      omega
  · intro i sf hi
    by_cases h : i = st.nextId
    · subst h
      rw [mapGet_mapSet_self] at hi
      cases hi
      simp [getVersions, hnover]
    · rw [mapGet_mapSet_ne _ _ _ _ h] at hi
      simpa [getVersions, mapGet_mapSet_ne _ _ _ _ h] using inv.lastContent i sf hi
  · intro i
    by_cases h : i = st.nextId
    · subst h
      simp [getVersions, hnover]
    · simpa [getVersions, mapGet_mapSet_ne _ _ _ _ h] using inv.contentsChain i

theorem inv_updateStoryFile (st : StoryFileStore) (id : Nat) (c msg b : String)
    (m : List (String × MetaVal)) (st' : StoryFileStore) (sf' : StoryFile)
    (inv : StoreInv st)
    (h : updateStoryFile st id c msg b m = Except.ok (st', sf')) : StoreInv st' := by
  cases hsf : mapGet st.storyFiles id with
  | none =>
    rw [updateStoryFile_missing st id c msg b m hsf] at h
    cases h
  | some sf =>
    by_cases hc : sf.content = c
    · rw [updateStoryFile_noop st id c msg b m sf hsf hc, Except.ok.injEq,
        Prod.mk.injEq] at h
      obtain ⟨h1, _⟩ := h
      subst h1
      exact inv
    · rw [updateStoryFile_changed st id c msg b m sf hsf hc, Except.ok.injEq,
        Prod.mk.injEq] at h
      obtain ⟨h1, _⟩ := h
      subst h1
      have hid : sf.id = id := inv.idMatch id sf hsf
      rw [hid]
      have hnums : ((mapGet st.versions id).getD []).map StoryFileVersion.version =
          List.range' 1 sf.version := inv.versionNums id sf hsf
      have hlast : (((mapGet st.versions id).getD []).map
          StoryFileVersion.content).getLast? = some sf.content := inv.lastContent id sf hsf
      constructor
      · intro i sfi hi
        by_cases hik : i = id
        · subst hik
          rw [mapGet_mapSet_self] at hi
          cases hi
          rfl
        · rw [mapGet_mapSet_ne _ _ _ _ hik] at hi
          exact inv.idMatch i sfi hi
      · intro i sfi hi
        by_cases hik : i = id
        · subst hik
          rw [mapGet_mapSet_self] at hi
          cases hi
          simp only [getVersions, mapGet_mapSet_self, Option.getD_some, List.map_append,
            List.map_cons, List.map_nil, hnums]
          rw [range'_snoc 1 sf.version]
          simp [Nat.add_comm 1 sf.version]
        · rw [mapGet_mapSet_ne _ _ _ _ hik] at hi
          simpa [getVersions, mapGet_mapSet_ne _ _ _ _ hik] using inv.versionNums i sfi hi
      · intro i hi
        by_cases hik : i = id
        · subst hik
          simp
        · rw [mapGet_mapSet_ne _ _ _ _ hik] at hi ⊢
          exact inv.versionsLive i hi
      · intro i hi
        show i < st.nextId + 1
        by_cases hik : i = id
        · subst hik
          have := inv.freshFiles i (by simp [hsf])
          omega
        · rw [mapGet_mapSet_ne _ _ _ _ hik] at hi
          have := inv.freshFiles i hi
          omega
      · intro i hi
        show i < st.nextId + 1
        by_cases hik : i = id
        · subst hik
          have := inv.freshFiles i (by simp [hsf])
          omega
        · rw [mapGet_mapSet_ne _ _ _ _ hik] at hi
          have := inv.freshVersions i hi
          omega
      · intro i sfi hi
        by_cases hik : i = id
        · subst hik
          rw [mapGet_mapSet_self] at hi
          cases hi
          simp [getVersions]
        · rw [mapGet_mapSet_ne _ _ _ _ hik] at hi
          simpa [getVersions, mapGet_mapSet_ne _ _ _ _ hik] using inv.lastContent i sfi hi
      · intro i
        by_cases hik : i = id
        · subst hik
          simp only [getVersions, mapGet_mapSet_self, Option.getD_some, List.map_append,
            List.map_cons, List.map_nil]
          rw [List.chain'_append]
          refine ⟨inv.contentsChain i, List.chain'_singleton _, ?_⟩
          intro x hx y hy
          rw [hlast] at hx
          cases hx
          simp only [List.head?_cons, Option.mem_def, Option.some.injEq] at hy
          subst hy
          exact hc
        · simpa [getVersions, mapGet_mapSet_ne _ _ _ _ hik] using inv.contentsChain i

theorem inv_revertToVersion (st : StoryFileStore) (id v : Nat) (msg b : String)
    (st' : StoryFileStore) (sf' : StoryFile) (inv : StoreInv st)
    (h : revertToVersion st id v msg b = Except.ok (st', sf')) : StoreInv st' := by
  unfold revertToVersion at h
  cases hv : getVersion st id v with
  | none => rw [hv] at h; cases h
  | some tv =>
    rw [hv] at h
    exact inv_updateStoryFile st id tv.content msg b _ st' sf' inv h

theorem inv_deleteStoryFile (st : StoryFileStore) (id : Nat) (inv : StoreInv st) :
    StoreInv (deleteStoryFile st id).1 := by
  unfold deleteStoryFile
  by_cases hex : (mapGet st.storyFiles id).isSome
  · simp only [hex, if_true]
    constructor
    · intro i sfi hi
      by_cases hik : i = id
      · subst hik
        rw [mapGet_mapRemove_self] at hi
        cases hi
      · rw [mapGet_mapRemove_ne _ _ _ hik] at hi
        exact inv.idMatch i sfi hi
    · intro i sfi hi
      by_cases hik : i = id
      · subst hik
        rw [mapGet_mapRemove_self] at hi
        cases hi
      · rw [mapGet_mapRemove_ne _ _ _ hik] at hi
        simpa [getVersions, mapGet_mapRemove_ne _ _ _ hik] using inv.versionNums i sfi hi
    · intro i hi
      by_cases hik : i = id
      · subst hik
        rw [mapGet_mapRemove_self] at hi
        cases hi
      · rw [mapGet_mapRemove_ne _ _ _ hik] at hi ⊢
        exact inv.versionsLive i hi
    · intro i hi
      show i < st.nextId
      by_cases hik : i = id
      · subst hik
        rw [mapGet_mapRemove_self] at hi
        cases hi
      · rw [mapGet_mapRemove_ne _ _ _ hik] at hi
        exact inv.freshFiles i hi
    · intro i hi
      show i < st.nextId
      by_cases hik : i = id
      · subst hik
        rw [mapGet_mapRemove_self] at hi
        cases hi
      · rw [mapGet_mapRemove_ne _ _ _ hik] at hi
        exact inv.freshVersions i hi
    · intro i sfi hi
      by_cases hik : i = id
      · subst hik
        rw [mapGet_mapRemove_self] at hi
        cases hi
      · rw [mapGet_mapRemove_ne _ _ _ hik] at hi
        simpa [getVersions, mapGet_mapRemove_ne _ _ _ hik] using inv.lastContent i sfi hi
    · intro i
      by_cases hik : i = id
      · subst hik
        simp [getVersions]
      · simpa [getVersions, mapGet_mapRemove_ne _ _ _ hik] using inv.contentsChain i
  · simp only [hex, if_false]
    exact inv

theorem applyOp_update (st : StoryFileStore) (id : Nat) (c msg b : String)
    (m : List (String × MetaVal)) :
    applyOp st (StoreOp.update id c msg b m) =
      match updateStoryFile st id c msg b m with
      | Except.ok (st', _) => st'
      | Except.error _ => st := rfl

theorem applyOp_revert (st : StoryFileStore) (id v : Nat) (msg b : String) :
    applyOp st (StoreOp.revert id v msg b) =
      match revertToVersion st id v msg b with
      | Except.ok (st', _) => st'
      | Except.error _ => st := rfl

theorem inv_applyOp (st : StoryFileStore) (op : StoreOp) (inv : StoreInv st) :
    StoreInv (applyOp st op) := by
  cases op with
  | create p f c m b => exact inv_createStoryFile st p f c m b inv
  | update id c msg b m =>
    rw [applyOp_update]
    cases h : updateStoryFile st id c msg b m with
    | ok r =>
      obtain ⟨st2, sf2⟩ := r
      exact inv_updateStoryFile st id c msg b m st2 sf2 inv h
    | error e => exact inv
  | revert id v msg b =>
    rw [applyOp_revert]
    cases h : revertToVersion st id v msg b with
    | ok r =>
      obtain ⟨st2, sf2⟩ := r
      exact inv_revertToVersion st id v msg b st2 sf2 inv h
    | error e => exact inv
  | delete id => exact inv_deleteStoryFile st id inv

theorem inv_applyOps (st : StoryFileStore) (ops : List StoreOp) (inv : StoreInv st) :
    StoreInv (applyOps st ops) := by
  induction ops generalizing st with
  | nil => exact inv
  | cons op rest ih => exact ih (applyOp st op) (inv_applyOp st op inv)

/-- Every reachable store state satisfies the internal invariant. -/
theorem reachable_inv (st : StoryFileStore) (h : Reachable st) : StoreInv st := by
  obtain ⟨ops, rfl⟩ := h
  exact inv_applyOps emptyStore ops inv_empty

theorem reachable_applyOp (st : StoryFileStore) (op : StoreOp) (h : Reachable st) :
    Reachable (applyOp st op) := by
  obtain ⟨ops, rfl⟩ := h
  exact ⟨ops ++ [op], by simp [applyOps]⟩

theorem reachable_applyOps (st : StoryFileStore) (ops : List StoreOp)
    (h : Reachable st) : Reachable (applyOps st ops) := by
  induction ops generalizing st with
  | nil => exact h
  | cons op rest ih => exact ih (applyOp st op) (reachable_applyOp st op h)

theorem updateMany_eq_applyOps (st : StoryFileStore) (id : Nat) (cs : List String) :
    updateMany st id cs =
      applyOps st (cs.map (fun c => StoreOp.update id c "Updated content" "system" [])) := by
  induction cs generalizing st with
  | nil => rfl
  | cons c rest ih => simpa [updateMany, applyOps] using ih _

/-- Effect of a chain of content-changing updates: each one succeeds,
increments the version, and appends one version record. -/
theorem updateMany_spec (cs : List String) (st : StoryFileStore) (id : Nat)
    (sf : StoryFile) (inv : StoreInv st) (hsf : mapGet st.storyFiles id = some sf)
    (hchain : List.Chain' (fun a b => a ≠ b) (sf.content :: cs)) :
    ∃ sf', mapGet (updateMany st id cs).storyFiles id = some sf' ∧
      sf'.version = sf.version + cs.length ∧
      sf'.content = cs.getLastD sf.content ∧
      (getVersions (updateMany st id cs) id).length =
        (getVersions st id).length + cs.length := by
  induction cs generalizing st sf with
  | nil =>
    exact ⟨sf, by simpa [updateMany] using hsf, by simp [updateMany],
      by simp [updateMany], by simp [updateMany]⟩
  | cons c rest ih =>
    have hne : sf.content ≠ c := (List.chain'_cons.mp hchain).1
    have hchain' : List.Chain' (fun a b => a ≠ b) (c :: rest) :=
      (List.chain'_cons.mp hchain).2
    have hid : sf.id = id := inv.idMatch id sf hsf
    have happly : applyOp st (StoreOp.update id c "Updated content" "system" []) =
        { storyFiles := mapSet st.storyFiles id
            { sf with content := c, version := sf.version + 1
                      metadata := jsSpread sf.metadata [] }
          versions := mapSet st.versions id
            (((mapGet st.versions id).getD []) ++
              [⟨st.nextId, sf.id, sf.version + 1, c, jsSpread sf.metadata [],
                st.nextId, "system", "Updated content"⟩])
          nextId := st.nextId + 1 } := by
      rw [applyOp_update,
        updateStoryFile_changed st id c "Updated content" "system" [] sf hsf hne, hid]
    have hstep : updateMany st id (c :: rest) =
        updateMany (applyOp st (StoreOp.update id c "Updated content" "system" []))
          id rest := rfl
    have inv1 : StoreInv (applyOp st (StoreOp.update id c "Updated content" "system" [])) :=
      inv_applyOp st _ inv
    rw [hstep, happly] at *
    have hsf1 : mapGet (mapSet st.storyFiles id
        { sf with content := c, version := sf.version + 1
                  metadata := jsSpread sf.metadata [] }) id =
        some { sf with content := c, version := sf.version + 1
                       metadata := jsSpread sf.metadata [] } := mapGet_mapSet_self _ _ _
    obtain ⟨sf', h1, h2, h3, h4⟩ := ih _ _ inv1 hsf1 hchain'
    refine ⟨sf', h1, ?_, ?_, ?_⟩
    · rw [h2]
      simp
      omega
    · rw [h3]
      cases rest <;> simp [List.getLastD]
    · rw [h4]
      simp [getVersions]
      omega

/-! ### Diff characterization -/
theorem diffFold (ol nl : List String) (l : List Nat) (acc : StoryFileDiff) :
    l.foldl (fun a i => applyDiffLine a (diffLine ol[i]? nl[i]? i)) acc =
      { additions := acc.additions +
          l.countP (fun i => decide (ol[i]? ≠ nl[i]? ∧ (nl[i]?).isSome))
        deletions := acc.deletions +
          l.countP (fun i => decide (ol[i]? ≠ nl[i]? ∧ (ol[i]?).isSome))
        changes := acc.changes ++ l.filterMap (fun i =>
          match ol[i]?, nl[i]? with
          | none, some b => some ⟨ChangeType.add, i + 1, b⟩
          | some a, none => some ⟨ChangeType.delete, i + 1, a⟩
          | some a, some b =>
              if a = b then none else some ⟨ChangeType.modify, i + 1, b⟩
          | none, none => none) } := by
  induction l generalizing acc with
  | nil => simp
  | cons x xs ih =>
    rw [List.foldl_cons, ih]
    rcases ho : ol[x]? with _ | olx <;> rcases hn : nl[x]? with _ | nlx
    · simp [diffLine, applyDiffLine, ho, hn, List.countP_cons]
    · simp [diffLine, applyDiffLine, ho, hn, List.countP_cons, StoryFileDiff.mk.injEq]
      omega
    · simp [diffLine, applyDiffLine, ho, hn, List.countP_cons, StoryFileDiff.mk.injEq]
      omega
    · by_cases heq : olx = nlx
      · subst heq
        simp [diffLine, applyDiffLine, ho, hn, List.countP_cons]
      · simp [diffLine, applyDiffLine, ho, hn, heq, List.countP_cons,
          StoryFileDiff.mk.injEq, Ne.symm heq]
        omega

theorem computeSimpleDiff_eq (o n : String) :
    computeSimpleDiff o n =
      { additions := (List.range
            (max (jsSplitChar o '\n').length (jsSplitChar n '\n').length)).countP
          (fun i => decide ((jsSplitChar o '\n')[i]? ≠ (jsSplitChar n '\n')[i]? ∧
            ((jsSplitChar n '\n')[i]?).isSome))
        deletions := (List.range
            (max (jsSplitChar o '\n').length (jsSplitChar n '\n').length)).countP
          (fun i => decide ((jsSplitChar o '\n')[i]? ≠ (jsSplitChar n '\n')[i]? ∧
            ((jsSplitChar o '\n')[i]?).isSome))
        changes := (List.range
            (max (jsSplitChar o '\n').length (jsSplitChar n '\n').length)).filterMap
          (fun i =>
            match (jsSplitChar o '\n')[i]?, (jsSplitChar n '\n')[i]? with
            | none, some b => some ⟨ChangeType.add, i + 1, b⟩
            | some a, none => some ⟨ChangeType.delete, i + 1, a⟩
            | some a, some b =>
                if a = b then none else some ⟨ChangeType.modify, i + 1, b⟩
            | none, none => none) } := by
  unfold computeSimpleDiff
  rw [diffFold]
  simp

theorem computeSimpleDiff_self (c : String) : computeSimpleDiff c c = ⟨0, 0, []⟩ := by
  rw [computeSimpleDiff_eq]
  simp only [StoryFileDiff.mk.injEq]
  refine ⟨?_, ?_, ?_⟩
  · rw [List.countP_eq_zero]
    intro i _
    simp
  · rw [List.countP_eq_zero]
    intro i _
    simp
  · rw [List.filterMap_eq_nil_iff]
    intro i _
    cases (jsSplitChar c '\n')[i]? <;> simp

theorem generateTextGo_fst (mgr : LLMProviderManager) (prompt : String)
    (options : LLMOptions) (l att : List String) :
    (generateTextGo mgr prompt options l att).1 =
      att ++ attemptedOf mgr prompt options l := by
  induction l generalizing att with
  | nil => simp [generateTextGo, attemptedOf]
  | cons name rest ih =>
    cases hp : mapGet mgr.providers name with
    | none => simp [generateTextGo, attemptedOf, hp, ih]
    | some provider =>
      cases hr : provider prompt options with
      | ok r => simp [generateTextGo, attemptedOf, hp, hr]
      | error e => simp [generateTextGo, attemptedOf, hp, hr, ih]

theorem generateTextGo_snd (mgr : LLMProviderManager) (prompt : String)
    (options : LLMOptions) (l att : List String) :
    (generateTextGo mgr prompt options l att).2 = resultOf mgr prompt options l := by
  induction l generalizing att with
  | nil => simp [generateTextGo, resultOf]
  | cons name rest ih =>
    cases hp : mapGet mgr.providers name with
    | none => simp [generateTextGo, resultOf, hp, ih]
    | some provider =>
      cases hr : provider prompt options with
      | ok r => simp [generateTextGo, resultOf, hp, hr]
      | error e => simp [generateTextGo, resultOf, hp, hr, ih]

theorem attemptedOf_sublist (mgr : LLMProviderManager) (prompt : String)
    (options : LLMOptions) (l : List String) :
    (attemptedOf mgr prompt options l).Sublist l := by
  induction l with
  | nil => simp [attemptedOf]
  | cons name rest ih =>
    cases hp : mapGet mgr.providers name with
    | none =>
      simp only [attemptedOf, hp]
      exact ih.cons name
    | some provider =>
      cases hr : provider prompt options with
      | ok r =>
        simp only [attemptedOf, hp, hr]
        simp
      | error e =>
        simp only [attemptedOf, hp, hr]
        exact ih.cons₂ name

theorem resultOf_error_shape (mgr : LLMProviderManager) (prompt : String)
    (options : LLMOptions) (l : List String) (e : String)
    (h : resultOf mgr prompt options l = Except.error e) :
    e = "All LLM providers failed" := by
  induction l with
  | nil =>
    simp only [resultOf, Except.error.injEq] at h
    exact h.symm
  | cons name rest ih =>
    cases hp : mapGet mgr.providers name with
    | none =>
      simp only [resultOf, hp] at h
      exact ih h
    | some provider =>
      cases hr : provider prompt options with
      | ok r => simp only [resultOf, hp, hr] at h; cases h
      | error e' =>
        simp only [resultOf, hp, hr] at h
        exact ih h

theorem resultOf_error_iff (mgr : LLMProviderManager) (prompt : String)
    (options : LLMOptions) (l : List String) :
    resultOf mgr prompt options l = Except.error "All LLM providers failed" ↔
      ∀ name ∈ l, ∀ f, mapGet mgr.providers name = some f →
        ∃ e, f prompt options = Except.error e := by
  induction l with
  | nil => simp [resultOf]
  | cons name rest ih =>
    cases hp : mapGet mgr.providers name with
    | none =>
      simp only [resultOf, hp]
      rw [ih]
      constructor
      · intro h n hn f hf
        rcases List.mem_cons.mp hn with rfl | hn'
        · rw [hp] at hf; cases hf
        · exact h n hn' f hf
      · intro h n hn f hf
        exact h n (List.mem_cons_of_mem _ hn) f hf
    | some provider =>
      cases hr : provider prompt options with
      | ok r =>
        simp only [resultOf, hp, hr]
        constructor
        · intro h; cases h
        · intro h
          obtain ⟨e, he⟩ := h name (List.mem_cons_self name rest) provider hp
          rw [hr] at he
          cases he
      | error e' =>
        simp only [resultOf, hp, hr]
        rw [ih]
        constructor
        · intro h n hn f hf
          rcases List.mem_cons.mp hn with rfl | hn'
          · rw [hp] at hf
            cases hf
            exact ⟨e', hr⟩
          · exact h n hn' f hf
        · intro h n hn f hf
          exact h n (List.mem_cons_of_mem _ hn) f hf

theorem resultOf_ok_shape (mgr : LLMProviderManager) (prompt : String)
    (options : LLMOptions) (l : List String) (r : LLMResponse)
    (h : resultOf mgr prompt options l = Except.ok r) :
    attemptedOf mgr prompt options l ≠ [] ∧
    (∃ name f, (attemptedOf mgr prompt options l).getLast? = some name ∧
      mapGet mgr.providers name = some f ∧ f prompt options = Except.ok r) ∧
    (∀ name ∈ (attemptedOf mgr prompt options l).dropLast,
      ∃ f e, mapGet mgr.providers name = some f ∧
        f prompt options = Except.error e) := by
  induction l with
  | nil => simp [resultOf] at h
  | cons name rest ih =>
    cases hp : mapGet mgr.providers name with
    | none =>
      simp only [resultOf, hp] at h
      simpa only [attemptedOf, hp] using ih h
    | some provider =>
      cases hr : provider prompt options with
      | ok r' =>
        simp only [resultOf, hp, hr, Except.ok.injEq] at h
        subst h
        refine ⟨by simp [attemptedOf, hp, hr], ⟨name, provider, ?_, hp, hr⟩, ?_⟩
        · simp [attemptedOf, hp, hr]
        · simp [attemptedOf, hp, hr]
      | error e' =>
        simp only [resultOf, hp, hr] at h
        obtain ⟨hne, hlast, hfailed⟩ := ih h
        obtain ⟨y, ys, hys⟩ := List.exists_cons_of_ne_nil hne
        refine ⟨by simp [attemptedOf, hp, hr], ?_, ?_⟩
        · obtain ⟨n2, f2, hl, hf2, hok2⟩ := hlast
          refine ⟨n2, f2, ?_, hf2, hok2⟩
          simp only [attemptedOf, hp, hr, hys] at hl ⊢
          rw [List.getLast?_cons_cons]
          exact hl
        · intro n hn
          simp only [attemptedOf, hp, hr, hys] at hn ⊢
          rw [List.dropLast_cons₂, List.mem_cons] at hn
          rcases hn with rfl | hn'
          · exact ⟨provider, e', hp, hr⟩
          · exact hfailed n (by rw [hys]; exact hn')

theorem jsSliceLast_append {α : Type} (L ss : List α) (n : Nat) :
    jsSliceLast (jsSliceLast L n ++ ss) n = jsSliceLast (L ++ ss) n := by
  unfold jsSliceLast
  rw [List.length_append, List.length_drop, List.length_append,
    List.drop_append_eq_append_drop, List.drop_append_eq_append_drop,
    List.drop_drop, List.length_drop]
  congr 1
  · rcases le_or_lt L.length n with h | h
    · congr 1
      omega
    · rcases le_or_lt n ss.length with h2 | h2
      · rw [List.drop_eq_nil_of_le (by omega), List.drop_eq_nil_of_le (by omega)]
      · congr 1
        omega
  · congr 1
    omega

theorem recordSession_metrics_eq (m : UsageMonitor) (s : AgentSession) :
    (recordSession m s).sessionMetrics = jsSliceLast (m.sessionMetrics ++ [s]) 1000 := by
  show (if (m.sessionMetrics ++ [s]).length > 1000
      then jsSliceLast (m.sessionMetrics ++ [s]) 1000
      else m.sessionMetrics ++ [s]) = jsSliceLast (m.sessionMetrics ++ [s]) 1000
  by_cases h : (m.sessionMetrics ++ [s]).length > 1000
  · rw [if_pos h]
  · rw [if_neg h]
    unfold jsSliceLast
    rw [show (m.sessionMetrics ++ [s]).length - 1000 = 0 by omega, List.drop_zero]

theorem recordMany_state (m : UsageMonitor) (ss : List AgentSession)
    (h : m.sessionMetrics.length ≤ 1000) :
    (recordMany m ss).sessionMetrics = jsSliceLast (m.sessionMetrics ++ ss) 1000 ∧
    (recordMany m ss).totalRequests = m.totalRequests + ss.length ∧
    (recordMany m ss).errorCount = m.errorCount := by
  induction ss generalizing m with
  | nil =>
    refine ⟨?_, by simp [recordMany], by simp [recordMany]⟩
    unfold jsSliceLast
    rw [List.append_nil, show m.sessionMetrics.length - 1000 = 0 by omega, List.drop_zero]
    rfl
  | cons s rest ih =>
    have hlen : (recordSession m s).sessionMetrics.length ≤ 1000 := by
      rw [recordSession_metrics_eq]
      unfold jsSliceLast
      rw [List.length_drop]
      omega
    have step : recordMany m (s :: rest) = recordMany (recordSession m s) rest := rfl
    obtain ⟨h1, h2, h3⟩ := ih (recordSession m s) hlen
    refine ⟨?_, ?_, ?_⟩
    · rw [step, h1, recordSession_metrics_eq, jsSliceLast_append]
      simp
    · rw [step, h2]
      show m.totalRequests + 1 + rest.length = m.totalRequests + (rest.length + 1)
      omega
    · rw [step, h3]
      rfl

theorem foldl_add_map {α M : Type} [AddCommMonoid M] (f : α → M) (l : List α)
    (init : M) : l.foldl (fun acc x => acc + f x) init = init + (l.map f).sum := by
  induction l generalizing init with
  | nil => simp
  | cons x xs ih =>
    rw [List.foldl_cons, ih, List.map_cons, List.sum_cons]
    rw [add_assoc]

/-! ### Claim theorems -/
/-- Claim C3: `diff` is the naive positional line comparison over indices
`0 .. max(lenOld, lenNew) - 1`: an index where only the new side has a line
counts one addition, only the old side one deletion, both present but
different one addition and one deletion recorded as a single 'modify'
change; identical contents diff to `{additions: 0, deletions: 0, changes: []}`;
and for a document created with "line1\nline2" then updated to
"line1\nline2\nline3", `diff(v1, v2)` is one 'add' at line 3 with content
"line3" (`additions = 1`, `deletions = 0`). -/
theorem diff_naive_positional :
    (∀ o n : String,
      computeSimpleDiff o n =
        { additions := (List.range
              (max (jsSplitChar o '\n').length (jsSplitChar n '\n').length)).countP
            (fun i => decide ((jsSplitChar o '\n')[i]? ≠ (jsSplitChar n '\n')[i]? ∧
              ((jsSplitChar n '\n')[i]?).isSome))
          deletions := (List.range
              (max (jsSplitChar o '\n').length (jsSplitChar n '\n').length)).countP
            (fun i => decide ((jsSplitChar o '\n')[i]? ≠ (jsSplitChar n '\n')[i]? ∧
              ((jsSplitChar o '\n')[i]?).isSome))
          changes := (List.range
              (max (jsSplitChar o '\n').length (jsSplitChar n '\n').length)).filterMap
            (fun i =>
              match (jsSplitChar o '\n')[i]?, (jsSplitChar n '\n')[i]? with
              | none, some b => some ⟨ChangeType.add, i + 1, b⟩
              | some a, none => some ⟨ChangeType.delete, i + 1, a⟩
              | some a, some b =>
                  if a = b then none else some ⟨ChangeType.modify, i + 1, b⟩
              | none, none => none) }) ∧
    (∀ c : String, computeSimpleDiff c c = ⟨0, 0, []⟩) ∧
    getDiff (applyOps emptyStore
        [StoreOp.create "p" "story.md" "line1\nline2" [] "user",
         StoreOp.update 0 "line1\nline2\nline3" "Updated content" "user" []]) 0 1 2 =
      Except.ok ⟨1, 0, [⟨ChangeType.add, 3, "line3"⟩]⟩ :=
  ⟨computeSimpleDiff_eq, computeSimpleDiff_self, rfl⟩

/-- Claim C1 counterexample: a document freshly created with content "a" and
then put through one successful content-changing update (to "b") has
`version = 2` and two version records, not `version = 1` and one record as
the claim's "`version` after N updates equals N / getVersions returns N
entries" (here N = 1) requires: creation itself already wrote version 1. -/
theorem version_equals_update_count_counterexample :
    (updateStoryFile (createStoryFile emptyStore "p" "f.md" "a" [] "system").1 0 "b"
        "Updated content" "system" []).map
      (fun r => (r.2.version, (getVersions r.1 0).length)) = Except.ok (2, 2) ∧
    ((2, 2) : Nat × Nat) ≠ (1, 1) := ⟨rfl, by decide⟩

/-- Claim C1 (amended): in every reachable store state, each live document's
`version` equals the number of its version records, and the records carry
exactly the version numbers `1, …, version` in creation order (never reused
or skipped); a freshly created document taken through N successful
content-changing updates has `version = N + 1` and `getVersions` returns
`N + 1` entries (the claim's `N` misses the initial creation record), still
numbered `1, …, N + 1` in creation order. -/
theorem version_equals_record_count :
    (∀ st, Reachable st → ∀ id sf, getStoryFile st id = some sf →
      sf.version = (getVersions st id).length ∧
      (getVersions st id).map StoryFileVersion.version = List.range' 1 sf.version) ∧
    (∀ (st : StoryFileStore) (p f c0 : String) (m : List (String × MetaVal))
        (b : String) (cs : List String), Reachable st →
      List.Chain' (fun a b => a ≠ b) (c0 :: cs) →
      ∃ sf',
        getStoryFile
          (updateMany (createStoryFile st p f c0 m b).1
            (createStoryFile st p f c0 m b).2.id cs)
          (createStoryFile st p f c0 m b).2.id = some sf' ∧
        sf'.version = cs.length + 1 ∧
        (getVersions
          (updateMany (createStoryFile st p f c0 m b).1
            (createStoryFile st p f c0 m b).2.id cs)
          (createStoryFile st p f c0 m b).2.id).length = cs.length + 1 ∧
        (getVersions
          (updateMany (createStoryFile st p f c0 m b).1
            (createStoryFile st p f c0 m b).2.id cs)
          (createStoryFile st p f c0 m b).2.id).map StoryFileVersion.version =
          List.range' 1 (cs.length + 1)) := by
  constructor
  · intro st h id sf hsf
    have inv := reachable_inv st h
    have hnums := inv.versionNums id sf hsf
    refine ⟨?_, hnums⟩
    have := congrArg List.length hnums
    simpa using this.symm
  · intro st p f c0 m b cs hreach hchain
    have inv := reachable_inv st hreach
    have hnover : mapGet st.versions st.nextId = none := by
      cases hv : mapGet st.versions st.nextId with
      | none => rfl
      | some l => exact absurd (inv.freshVersions st.nextId (by simp [hv])) (by omega)
    have inv1 : StoreInv (createStoryFile st p f c0 m b).1 :=
      inv_createStoryFile st p f c0 m b inv
    have hsf1 : mapGet (createStoryFile st p f c0 m b).1.storyFiles st.nextId =
        some (createStoryFile st p f c0 m b).2 := by
      rw [createStoryFile_fst, createStoryFile_snd]
      exact mapGet_mapSet_self _ _ _
    have hchain' : List.Chain' (fun a b => a ≠ b)
        ((createStoryFile st p f c0 m b).2.content :: cs) := hchain
    obtain ⟨sf', h1, h2, h3, h4⟩ :=
      updateMany_spec cs (createStoryFile st p f c0 m b).1 st.nextId
        (createStoryFile st p f c0 m b).2 inv1 hsf1 hchain'
    have hlen1 : (getVersions (createStoryFile st p f c0 m b).1 st.nextId).length = 1 := by
      rw [createStoryFile_fst]
      simp [getVersions, hnover]
    have hid : (createStoryFile st p f c0 m b).2.id = st.nextId := rfl
    have hreach' : Reachable
        (updateMany (createStoryFile st p f c0 m b).1 st.nextId cs) := by
      rw [updateMany_eq_applyOps]
      exact reachable_applyOps _ _
        (reachable_applyOp st (StoreOp.create p f c0 m b) hreach)
    have inv' := reachable_inv _ hreach'
    have hv2 : sf'.version = cs.length + 1 := by
      rw [h2]
      show (1 : Nat) + cs.length = cs.length + 1
      omega
    refine ⟨sf', ?_, hv2, ?_, ?_⟩
    · rw [hid]
      exact h1
    · rw [hid, h4, hlen1]
      omega
    · rw [hid]
      have := inv'.versionNums st.nextId sf' h1
      rw [hv2] at this
      exact this

/-- Witness for the amended C1 at a concrete store: one document created
with content "a" and updated once to "b". -/
theorem version_equals_record_count_witness :
    ∃ sf',
      getStoryFile
        (updateMany (createStoryFile emptyStore "p" "f.md" "a" [] "system").1
          (createStoryFile emptyStore "p" "f.md" "a" [] "system").2.id ["b"])
        (createStoryFile emptyStore "p" "f.md" "a" [] "system").2.id = some sf' ∧
      sf'.version = 2 ∧
      (getVersions
        (updateMany (createStoryFile emptyStore "p" "f.md" "a" [] "system").1
          (createStoryFile emptyStore "p" "f.md" "a" [] "system").2.id ["b"])
        (createStoryFile emptyStore "p" "f.md" "a" [] "system").2.id).length = 2 ∧
      (getVersions
        (updateMany (createStoryFile emptyStore "p" "f.md" "a" [] "system").1
          (createStoryFile emptyStore "p" "f.md" "a" [] "system").2.id ["b"])
        (createStoryFile emptyStore "p" "f.md" "a" [] "system").2.id).map
        StoryFileVersion.version = List.range' 1 2 :=
  version_equals_record_count.2 emptyStore "p" "f.md" "a" [] "system" ["b"]
    ⟨[], rfl⟩ (by simp)

/-- Claim C2: updating a document with content identical to its current
content is a no-op — the unchanged document and store state are returned, so
the version number and the history length are unchanged and no version
record is appended; consequently no reachable version history contains two
consecutive identical-content records. -/
theorem update_identical_content_noop :
    (∀ (st : StoryFileStore) (id : Nat) (c msg b : String)
        (m : List (String × MetaVal)) (sf : StoryFile),
      mapGet st.storyFiles id = some sf → sf.content = c →
      updateStoryFile st id c msg b m = Except.ok (st, sf)) ∧
    (∀ st, Reachable st → ∀ id,
      List.Chain' (fun a b => a ≠ b)
        ((getVersions st id).map StoryFileVersion.content)) :=
  ⟨fun st id c msg b m sf hsf hc => updateStoryFile_noop st id c msg b m sf hsf hc,
   fun st h id => (reachable_inv st h).contentsChain id⟩

/-- Witness for C2: updating the freshly created document with its own
content "a" returns the state and document unchanged, and the history
contents form a chain of consecutive distinct contents. -/
theorem update_identical_content_noop_witness :
    updateStoryFile (applyOps emptyStore [StoreOp.create "p" "f.md" "a" [] "system"]) 0
        "a" "Updated content" "system" [] =
      Except.ok (applyOps emptyStore [StoreOp.create "p" "f.md" "a" [] "system"],
        ⟨0, "p", "f.md", "a", 1, []⟩) ∧
    List.Chain' (fun a b => a ≠ b)
      ((getVersions (applyOps emptyStore [StoreOp.create "p" "f.md" "a" [] "system"]) 0).map
        StoryFileVersion.content) :=
  ⟨update_identical_content_noop.1 _ 0 "a" "Updated content" "system" []
      ⟨0, "p", "f.md", "a", 1, []⟩ rfl rfl,
   update_identical_content_noop.2 _ ⟨[StoreOp.create "p" "f.md" "a" [] "system"], rfl⟩ 0⟩

/-- Claim C6: in every reachable state, `revertToVersion` fails (with the
version-not-found error) exactly when the target version does not exist, and
the failing call leaves the store unmodified; for an existing target version
the call is a normal update with that version's stored content: the
resulting document's content equals the stored content, and either the
stored content equals the current content — then the no-op rule applies and
state, document and version number are unchanged — or a new version record
is appended, the version number is incremented, and the metadata is tagged
with `revertedFrom: targetVersion`. -/
theorem revert_to_version_spec :
    ∀ st, Reachable st → ∀ (id v : Nat) (msg b : String),
      ((∃ e, revertToVersion st id v msg b = Except.error e) ↔
        getVersion st id v = none) ∧
      (getVersion st id v = none →
        revertToVersion st id v msg b =
          Except.error ("Version " ++ toString v ++ " not found for story file " ++
            toString id) ∧
        applyOp st (StoreOp.revert id v msg b) = st) ∧
      (∀ tv, getVersion st id v = some tv →
        ∃ sf, mapGet st.storyFiles id = some sf ∧
          ∃ st' sf', revertToVersion st id v msg b = Except.ok (st', sf') ∧
            sf'.content = tv.content ∧
            (tv.content = sf.content → st' = st ∧ sf' = sf) ∧
            (tv.content ≠ sf.content →
              sf'.version = sf.version + 1 ∧
              mapGet sf'.metadata "revertedFrom" = some (MetaVal.natV v) ∧
              getVersions st' id = getVersions st id ++
                [⟨st.nextId, id, sf.version + 1, tv.content,
                  jsSpread sf.metadata [("revertedFrom", MetaVal.natV v)],
                  st.nextId, b, msg⟩])) := by
  intro st h id v msg b
  have inv := reachable_inv st h
  have hdoc : ∀ tv, getVersion st id v = some tv →
      ∃ sf, mapGet st.storyFiles id = some sf := by
    intro tv htv
    have hvs : (mapGet st.versions id).isSome := by
      unfold getVersion at htv
      cases hv : mapGet st.versions id with
      | none => rw [hv] at htv; simp at htv
      | some l => simp
    have hss := inv.versionsLive id hvs
    cases hsf : mapGet st.storyFiles id with
    | none => rw [hsf] at hss; simp at hss
    | some sf => exact ⟨sf, rfl⟩
  refine ⟨?_, ?_, ?_⟩
  · constructor
    · rintro ⟨e, he⟩
      cases hv : getVersion st id v with
      | none => rfl
      | some tv =>
        exfalso
        obtain ⟨sf, hsf⟩ := hdoc tv hv
        simp only [revertToVersion, hv] at he
        by_cases hc : sf.content = tv.content
        · rw [updateStoryFile_noop st id tv.content msg b _ sf hsf hc] at he
          cases he
        · rw [updateStoryFile_changed st id tv.content msg b _ sf hsf hc] at he
          cases he
    · intro hv
      exact ⟨"Version " ++ toString v ++ " not found for story file " ++ toString id,
        by simp only [revertToVersion, hv]⟩
  · intro hv
    constructor
    · simp only [revertToVersion, hv]
    · rw [applyOp_revert]
      simp only [revertToVersion, hv]
  · intro tv htv
    obtain ⟨sf, hsf⟩ := hdoc tv htv
    have hid : sf.id = id := inv.idMatch id sf hsf
    refine ⟨sf, hsf, ?_⟩
    by_cases hc : sf.content = tv.content
    · refine ⟨st, sf, ?_, hc, fun _ => ⟨rfl, rfl⟩, fun hne => absurd hc.symm hne⟩
      simp only [revertToVersion, htv]
      exact updateStoryFile_noop st id tv.content msg b _ sf hsf hc
    · refine ⟨_, _,
        (by simp only [revertToVersion, htv]
            exact updateStoryFile_changed st id tv.content msg b _ sf hsf hc),
        ?_, ?_, ?_⟩
      · rfl
      · intro heq
        exact absurd heq.symm hc
      · intro _
        refine ⟨rfl, ?_, ?_⟩
        · exact mapGet_mapSet_self sf.metadata "revertedFrom" (MetaVal.natV v)
        · rw [hid]
          simp [getVersions]

/-- Witness for C6 at a concrete reachable store (a document created with
"a" and updated to "b"): reverting to the missing version 5 fails with the
version-not-found error and leaves the state unchanged. -/
theorem revert_to_version_spec_witness :
    revertToVersion (applyOps emptyStore
        [StoreOp.create "p" "f.md" "a" [] "system",
         StoreOp.update 0 "b" "Updated content" "system" []]) 0 5 "m" "u" =
      Except.error ("Version " ++ toString 5 ++ " not found for story file " ++
        toString 0) ∧
    applyOp (applyOps emptyStore
        [StoreOp.create "p" "f.md" "a" [] "system",
         StoreOp.update 0 "b" "Updated content" "system" []])
      (StoreOp.revert 0 5 "m" "u") =
      applyOps emptyStore
        [StoreOp.create "p" "f.md" "a" [] "system",
         StoreOp.update 0 "b" "Updated content" "system" []] :=
  (revert_to_version_spec _
      ⟨[StoreOp.create "p" "f.md" "a" [] "system",
        StoreOp.update 0 "b" "Updated content" "system" []], rfl⟩
      0 5 "m" "u").2.1 rfl

/-- Claim C10: for every reachable store state and document id not present in
the store (never created, or deleted), the read operations are total:
`getStoryFile` returns `null`, `getVersions` returns the empty list, and
`getVersion` returns `null` for every version number; and immediately after
`deleteStoryFile` the deleted id reads the same way. -/
theorem missing_document_reads_total :
    (∀ st, Reachable st → ∀ id, getStoryFile st id = none →
      getVersions st id = [] ∧ ∀ v, getVersion st id v = none) ∧
    (∀ st, Reachable st → ∀ id,
      getStoryFile (deleteStoryFile st id).1 id = none ∧
      getVersions (deleteStoryFile st id).1 id = [] ∧
      ∀ v, getVersion (deleteStoryFile st id).1 id v = none) := by
  have key : ∀ st, Reachable st → ∀ id, getStoryFile st id = none →
      getVersions st id = [] ∧ ∀ v, getVersion st id v = none := by
    intro st h id hid
    have inv := reachable_inv st h
    have hv : mapGet st.versions id = none := by
      cases hvv : mapGet st.versions id with
      | none => rfl
      | some l =>
        have := inv.versionsLive id (by simp [hvv])
        rw [show mapGet st.storyFiles id = none from hid] at this
        simp at this
    exact ⟨by simp [getVersions, hv], fun v => by simp [getVersion, hv]⟩
  refine ⟨key, ?_⟩
  intro st h id
  unfold deleteStoryFile
  by_cases hex : (mapGet st.storyFiles id).isSome
  · rw [if_pos hex]
    refine ⟨?_, ?_, fun v => ?_⟩
    · show mapGet (mapRemove st.storyFiles id) id = none
      exact mapGet_mapRemove_self _ _
    · simp [getVersions]
    · simp [getVersion]
  · rw [if_neg hex]
    have hnone : getStoryFile st id = none := by
      cases hs : mapGet st.storyFiles id with
      | none => exact hs
      | some sf => rw [hs] at hex; simp at hex
    exact ⟨hnone, key st h id hnone⟩

/-- Witness for C10: the id 7 was never created in a store holding one
document, and deleting id 0 from it makes id 0 read as missing. -/
theorem missing_document_reads_total_witness :
    (getVersions (applyOps emptyStore [StoreOp.create "p" "f.md" "a" [] "system"]) 7 = [] ∧
      ∀ v, getVersion (applyOps emptyStore [StoreOp.create "p" "f.md" "a" [] "system"]) 7 v =
        none) ∧
    (getStoryFile
        (deleteStoryFile (applyOps emptyStore [StoreOp.create "p" "f.md" "a" [] "system"]) 0).1
        0 = none ∧
      getVersions
        (deleteStoryFile (applyOps emptyStore [StoreOp.create "p" "f.md" "a" [] "system"]) 0).1
        0 = [] ∧
      ∀ v, getVersion
        (deleteStoryFile (applyOps emptyStore [StoreOp.create "p" "f.md" "a" [] "system"]) 0).1
        0 v = none) :=
  ⟨missing_document_reads_total.1 _ ⟨[StoreOp.create "p" "f.md" "a" [] "system"], rfl⟩ 7 rfl,
   missing_document_reads_total.2 _ ⟨[StoreOp.create "p" "f.md" "a" [] "system"], rfl⟩ 0⟩

theorem providersToTry_nodup (mgr : LLMProviderManager)
    (hmgr : mgr.fallbackOrder.Nodup) (pref : Option String) :
    (providersToTry mgr pref).Nodup := by
  cases pref with
  | none => exact hmgr
  | some p =>
    refine List.nodup_cons.mpr ⟨?_, hmgr.filter _⟩
    intro hmem
    have := List.of_mem_filter hmem
    simp at this

/-- Claim C4: `generateText` builds the attempt list — the preferred provider
first (when given), then the remaining providers in the fixed fallback
order — and walks it sequentially: each provider is attempted at most once
(the attempt trace is duplicate-free), the first provider success is
returned (every earlier attempted provider having failed), an individual
provider's error never escapes, and the call fails — always with the
all-providers-failed error — if and only if every registered provider in
the list fails. -/
theorem generate_text_fallback :
    ∀ (g o a : String → LLMOptions → Except String LLMResponse)
      (prompt : String) (options : LLMOptions),
      (options.preferredProvider = none →
        providersToTry (mkLLMProviderManager g o a) options.preferredProvider =
          ["Gemini", "OpenAI", "Anthropic"]) ∧
      (∀ p, options.preferredProvider = some p →
        providersToTry (mkLLMProviderManager g o a) options.preferredProvider =
          p :: (["Gemini", "OpenAI", "Anthropic"].filter (fun q => decide (q ≠ p)))) ∧
      (generateTextTrace (mkLLMProviderManager g o a) prompt options).1.Nodup ∧
      (∀ e, generateText (mkLLMProviderManager g o a) prompt options =
          Except.error e → e = "All LLM providers failed") ∧
      (generateText (mkLLMProviderManager g o a) prompt options =
          Except.error "All LLM providers failed" ↔
        ∀ name ∈ providersToTry (mkLLMProviderManager g o a) options.preferredProvider,
          ∀ f, mapGet (mkLLMProviderManager g o a).providers name = some f →
            ∃ e, f prompt options = Except.error e) ∧
      (∀ r, generateText (mkLLMProviderManager g o a) prompt options = Except.ok r →
        (generateTextTrace (mkLLMProviderManager g o a) prompt options).1 ≠ [] ∧
        (∃ name f,
          ((generateTextTrace (mkLLMProviderManager g o a) prompt options).1).getLast? =
            some name ∧
          mapGet (mkLLMProviderManager g o a).providers name = some f ∧
          f prompt options = Except.ok r) ∧
        (∀ name ∈
            ((generateTextTrace (mkLLMProviderManager g o a) prompt options).1).dropLast,
          ∃ f e, mapGet (mkLLMProviderManager g o a).providers name = some f ∧
            f prompt options = Except.error e)) := by
  intro g o a prompt options
  have hnodup : (mkLLMProviderManager g o a).fallbackOrder.Nodup := by
    show (["Gemini", "OpenAI", "Anthropic"] : List String).Nodup
    decide
  have htrace1 : (generateTextTrace (mkLLMProviderManager g o a) prompt options).1 =
      attemptedOf (mkLLMProviderManager g o a) prompt options
        (providersToTry (mkLLMProviderManager g o a) options.preferredProvider) := by
    unfold generateTextTrace
    rw [generateTextGo_fst]
    simp
  have htrace2 : generateText (mkLLMProviderManager g o a) prompt options =
      resultOf (mkLLMProviderManager g o a) prompt options
        (providersToTry (mkLLMProviderManager g o a) options.preferredProvider) := by
    unfold generateText generateTextTrace
    rw [generateTextGo_snd]
  refine ⟨?_, ?_, ?_, ?_, ?_, ?_⟩
  · intro h
    rw [show providersToTry (mkLLMProviderManager g o a) options.preferredProvider =
      providersToTry (mkLLMProviderManager g o a) none from by rw [h]]
    rfl
  · intro p h
    rw [show providersToTry (mkLLMProviderManager g o a) options.preferredProvider =
      providersToTry (mkLLMProviderManager g o a) (some p) from by rw [h]]
    rfl
  · rw [htrace1]
    exact ((attemptedOf_sublist _ _ _ _).nodup
      (providersToTry_nodup _ hnodup options.preferredProvider))
  · intro e he
    rw [htrace2] at he
    exact resultOf_error_shape _ _ _ _ e he
  · rw [htrace2]
    exact resultOf_error_iff _ _ _ _
  · intro r hr
    rw [htrace2] at hr
    rw [htrace1]
    exact resultOf_ok_shape _ _ _ _ r hr

/-- Witness for C4: three always-failing providers exhaust the chain with
the all-providers-failed error; with a preferred provider and a succeeding
fallback, the attempt trace is duplicate-free. -/
theorem generate_text_fallback_witness :
    generateText (mkLLMProviderManager (fun _ _ => Except.error "gemini down")
        (fun _ _ => Except.error "openai down")
        (fun _ _ => Except.error "anthropic down")) "p" {} =
      Except.error "All LLM providers failed" ∧
    (generateTextTrace (mkLLMProviderManager (fun _ _ => Except.error "gemini down")
        (fun _ _ => Except.ok ⟨"ok", 5, 1, ⟨"m", "OpenAI", 2⟩⟩)
        (fun _ _ => Except.error "anthropic down")) "p"
      { preferredProvider := some "OpenAI" }).1.Nodup := by
  constructor
  · refine (generate_text_fallback (fun _ _ => Except.error "gemini down")
      (fun _ _ => Except.error "openai down")
      (fun _ _ => Except.error "anthropic down") "p" {}).2.2.2.2.1.mpr ?_
    intro name hname f hf
    have hname' : name = "Gemini" ∨ name = "OpenAI" ∨ name = "Anthropic" := by
      simpa [providersToTry, mkLLMProviderManager] using hname
    rcases hname' with rfl | rfl | rfl
    · simp only [mkLLMProviderManager, mapGet, if_pos rfl] at hf
      cases hf
      exact ⟨"gemini down", rfl⟩
    · simp [mkLLMProviderManager, mapGet] at hf
      cases hf
      exact ⟨"openai down", rfl⟩
    · simp [mkLLMProviderManager, mapGet] at hf
      cases hf
      exact ⟨"anthropic down", rfl⟩
  · exact (generate_text_fallback _ _ _ "p" _).2.2.1

/-- Claim C5: agent loading has partial-failure semantics: a directory with
one well-formed and one malformed agent definition (in either order) loads
to a registry with exactly the well-formed entry; `loadAgents` is total (a
per-file parse failure — a missing yaml block, or a parse exception caught
inside `parseAgentFile` — only skips that file, so no exception escapes). -/
theorem agent_loading_partial_failure :
    ∀ (goodName goodContent badName badContent : String) (a : BMADAgent),
      jsEndsWith goodName ".md" = true →
      jsEndsWith badName ".md" = true →
      parseAgentFile goodName goodContent = some a →
      parseAgentFile badName badContent = none →
      loadAgents [(goodName, goodContent), (badName, badContent)] = [(a.id, a)] ∧
      loadAgents [(badName, badContent), (goodName, goodContent)] = [(a.id, a)] := by
  intro gn gc bn bc a hg hb hpg hpb
  constructor
  · simp [loadAgents, List.filter_cons, hg, hb, hpg, hpb, mapSet]
  · simp [loadAgents, List.filter_cons, hg, hb, hpg, hpb, mapSet]

/-- Witness for C5: a concrete well-formed agent document and a concrete
document whose yaml triggers the parser's aliasing `TypeError` (caught and
skipped) load to the single well-formed registry entry. -/
theorem agent_loading_partial_failure_witness :
    loadAgents
      [("plot-architect.md",
        "# Plot Architect\n\n```yaml\nagent:\n  id: plot-architect\n  name: Plot Architect\n  title: Story Structure Specialist\n```\n"),
       ("broken.md",
        "# Broken\n\n```yaml\nagent:\n  x:\n    z:\n  w: 1\n```\n")] =
      [("plot-architect",
        ⟨"plot-architect", "Plot Architect", "Story Structure Specialist",
          ⟨"", "", []⟩, [], []⟩)] :=
  (agent_loading_partial_failure "plot-architect.md"
    "# Plot Architect\n\n```yaml\nagent:\n  id: plot-architect\n  name: Plot Architect\n  title: Story Structure Specialist\n```\n"
    "broken.md"
    "# Broken\n\n```yaml\nagent:\n  x:\n    z:\n  w: 1\n```\n"
    ⟨"plot-architect", "Plot Architect", "Story Structure Specialist", ⟨"", "", []⟩, [], []⟩
    rfl rfl rfl rfl).1

theorem recordSession_length_le (m : UsageMonitor) (s : AgentSession) :
    (recordSession m s).sessionMetrics.length ≤ 1000 := by
  rw [recordSession_metrics_eq]
  unfold jsSliceLast
  rw [List.length_drop]
  omega

/-- Claim C7: the session history is a fixed-capacity FIFO buffer of 1000:
recording any 1001 sessions retains exactly the most recent 1000 of them,
in recording order, and advances the request counter by 1001. -/
theorem session_history_fifo :
    ∀ (m : UsageMonitor) (ss : List AgentSession), ss.length = 1001 →
      (recordMany m ss).sessionMetrics = ss.drop 1 ∧
      (ss.drop 1).length = 1000 ∧
      (recordMany m ss).totalRequests = m.totalRequests + 1001 := by
  intro m ss hlen
  obtain ⟨s, rest, rfl⟩ : ∃ s rest, ss = s :: rest := by
    cases ss with
    | nil => simp at hlen
    | cons x l => exact ⟨x, l, rfl⟩
  have hrest : rest.length = 1000 := by simpa using hlen
  obtain ⟨h1, h2, _⟩ := recordMany_state (recordSession m s) rest
    (recordSession_length_le m s)
  refine ⟨?_, by simpa using hrest, ?_⟩
  · show (recordMany (recordSession m s) rest).sessionMetrics = rest
    rw [h1, recordSession_metrics_eq, jsSliceLast_append]
    unfold jsSliceLast
    have hb : (m.sessionMetrics ++ [s] ++ rest).length =
        m.sessionMetrics.length + 1 + 1000 := by
      simp [hrest]
    rw [hb, List.append_assoc,
      show m.sessionMetrics.length + 1 + 1000 - 1000 =
        m.sessionMetrics.length + 1 from by omega,
      show m.sessionMetrics.length + 1 = m.sessionMetrics.length + 1 from rfl]
    rw [show (m.sessionMetrics.length + 1) =
      m.sessionMetrics.length + 1 from rfl, List.drop_append_eq_append_drop]
    rw [List.drop_eq_nil_of_le (by omega), List.nil_append,
      show m.sessionMetrics.length + 1 - m.sessionMetrics.length = 1 from by omega]
    rfl
  · show (recordMany (recordSession m s) rest).totalRequests = m.totalRequests + 1001
    rw [h2]
    show m.totalRequests + 1 + rest.length = m.totalRequests + 1001
    omega

/-- Witness for C7: recording 1001 copies of a session from a fresh monitor
retains the most recent 1000 in order and counts 1001 requests. -/
theorem session_history_fifo_witness :
    (recordMany emptyUsageMonitor
      (List.replicate 1001 ⟨"i", "a", "u", "p", "s", [], [], ⟨"pr", "mo", 1, 1, 1⟩, 0, 0⟩)).sessionMetrics =
      (List.replicate 1001
        (⟨"i", "a", "u", "p", "s", [], [], ⟨"pr", "mo", 1, 1, 1⟩, 0, 0⟩ : AgentSession)).drop 1 ∧
    ((List.replicate 1001
      (⟨"i", "a", "u", "p", "s", [], [], ⟨"pr", "mo", 1, 1, 1⟩, 0, 0⟩ : AgentSession)).drop 1).length =
      1000 ∧
    (recordMany emptyUsageMonitor
      (List.replicate 1001 ⟨"i", "a", "u", "p", "s", [], [], ⟨"pr", "mo", 1, 1, 1⟩, 0, 0⟩)).totalRequests =
      emptyUsageMonitor.totalRequests + 1001 :=
  session_history_fifo emptyUsageMonitor _ (by rw [List.length_replicate])

/-- Claim C8: `getGlobalMetrics` computes its token, cost and latency
aggregates only over recorded sessions whose `createdAt` lies within the
last 24 hours of `now` — prepending an out-of-window session changes
nothing — while `errorRate` ignores the session list and the clock
entirely: it is lifetime errors over lifetime requests as a percentage, and
0 when no requests have been recorded. -/
theorem global_metrics_window_and_error_rate :
    (∀ (m : UsageMonitor) (now : Nat) (s : AgentSession),
      (s.createdAt : Int) < (now : Int) - 24 * 60 * 60 * 1000 →
      getGlobalMetrics { m with sessionMetrics := s :: m.sessionMetrics } now =
        getGlobalMetrics m now) ∧
    (∀ (m : UsageMonitor) (l1 l2 : List AgentSession) (now1 now2 : Nat),
      (getGlobalMetrics { m with sessionMetrics := l1 } now1).errorRate =
        (getGlobalMetrics { m with sessionMetrics := l2 } now2).errorRate) ∧
    (∀ (m : UsageMonitor) (now : Nat), m.totalRequests = 0 →
      (getGlobalMetrics m now).errorRate = 0) ∧
    (∀ (m : UsageMonitor) (now : Nat), 0 < m.totalRequests →
      (getGlobalMetrics m now).errorRate =
        ((m.errorCount : ℚ) / (m.totalRequests : ℚ)) * 100) ∧
    (∀ (m : UsageMonitor) (now : Nat),
      (getGlobalMetrics m now).totalTokensUsed =
        ((m.sessionMetrics.filter
            (fun s => decide ((s.createdAt : Int) ≥ (now : Int) - 24 * 60 * 60 * 1000))).map
          (fun s => s.llmMetadata.tokensUsed)).sum ∧
      (getGlobalMetrics m now).totalCost =
        ((m.sessionMetrics.filter
            (fun s => decide ((s.createdAt : Int) ≥ (now : Int) - 24 * 60 * 60 * 1000))).map
          (fun s => s.llmMetadata.cost)).sum) := by
  refine ⟨?_, ?_, ?_, ?_, ?_⟩
  · intro m now s h
    have hp : (decide ((s.createdAt : Int) ≥ (now : Int) - 24 * 60 * 60 * 1000)) = false := by
      simp only [decide_eq_false_iff_not]
      omega
    unfold getGlobalMetrics
    simp only [List.filter_cons, hp, Bool.false_eq_true, if_false]
  · intro m l1 l2 now1 now2
    rfl
  · intro m now h
    show (if m.totalRequests > 0 then ((m.errorCount : ℚ) / (m.totalRequests : ℚ)) * 100
      else 0) = 0
    rw [h]
    simp
  · intro m now h
    show (if m.totalRequests > 0 then ((m.errorCount : ℚ) / (m.totalRequests : ℚ)) * 100
      else 0) = ((m.errorCount : ℚ) / (m.totalRequests : ℚ)) * 100
    rw [if_pos h]
  · intro m now
    constructor
    · show (m.sessionMetrics.filter _).foldl
        (fun sum s => sum + s.llmMetadata.tokensUsed) 0 = _
      rw [foldl_add_map]
      simp
    · show (m.sessionMetrics.filter _).foldl
        (fun sum s => sum + s.llmMetadata.cost) 0 = _
      rw [foldl_add_map]
      simp

/-- Witness for C8: a monitor with one error among two lifetime requests
reports a 50 percent error rate regardless of the (empty) window; with no
requests the rate is 0; and prepending a day-old session leaves the whole
metrics record unchanged. -/
theorem global_metrics_window_and_error_rate_witness :
    getGlobalMetrics
        { sessionMetrics :=
            [⟨"i", "a", "u", "p", "s", [], [], ⟨"pr", "mo", 1, 1, 1⟩, 0, 0⟩]
          errorCount := 1
          totalRequests := 2 } 200000000 =
      getGlobalMetrics
        { sessionMetrics := ([] : List AgentSession)
          errorCount := 1
          totalRequests := 2 } 200000000 ∧
    (getGlobalMetrics
        { sessionMetrics := ([] : List AgentSession)
          errorCount := 1
          totalRequests := 2 } 0).errorRate = ((1 : ℚ) / (2 : ℚ)) * 100 ∧
    (getGlobalMetrics
        { sessionMetrics := ([] : List AgentSession)
          errorCount := 0
          totalRequests := 0 } 0).errorRate = 0 :=
  ⟨global_metrics_window_and_error_rate.1
      ⟨[], 1, 2⟩ 200000000 ⟨"i", "a", "u", "p", "s", [], [], ⟨"pr", "mo", 1, 1, 1⟩, 0, 0⟩
      (by decide),
   global_metrics_window_and_error_rate.2.2.2.1 ⟨[], 1, 2⟩ 0 (by decide),
   global_metrics_window_and_error_rate.2.2.1 ⟨[], 0, 0⟩ 0 rfl⟩

/-- Claim C9: prompt composition is a pure deterministic function of the
agent, the action description, the inputs and the document context: equal
arguments produce identical prompt text, and the text depends only on the
fields the template reads (the agent's name and persona), so no other state
influences the result. -/
theorem build_agent_prompt_pure :
    (∀ (a1 a2 : BMADAgent) (act1 act2 : String)
        (in1 in2 : List (String × String)) (ctx1 ctx2 : String),
      a1 = a2 → act1 = act2 → in1 = in2 → ctx1 = ctx2 →
      buildAgentPrompt a1 act1 in1 ctx1 = buildAgentPrompt a2 act2 in2 ctx2) ∧
    (∀ (a1 a2 : BMADAgent) (act : String) (inp : List (String × String)) (ctx : String),
      a1.name = a2.name → a1.persona.role = a2.persona.role →
      a1.persona.style = a2.persona.style →
      a1.persona.core_principles = a2.persona.core_principles →
      buildAgentPrompt a1 act inp ctx = buildAgentPrompt a2 act inp ctx) := by
  constructor
  · intro a1 a2 act1 act2 in1 in2 ctx1 ctx2 h1 h2 h3 h4
    rw [h1, h2, h3, h4]
  · intro a1 a2 act inp ctx h1 h2 h3 h4
    unfold buildAgentPrompt
    rw [h1, h2, h3, h4]

/-- Witness for C9: two agents differing only in fields the template does
not read (id, title, commands, dependencies) produce the identical prompt. -/
theorem build_agent_prompt_pure_witness :
    buildAgentPrompt ⟨"id1", "Writer", "T1", ⟨"a role", "a style", ["p1"]⟩, [], []⟩
        "act" [("k", "v")] "ctx" =
      buildAgentPrompt ⟨"id2", "Writer", "T2", ⟨"a role", "a style", ["p1"]⟩,
        [("c", YVal.str "d")], []⟩ "act" [("k", "v")] "ctx" :=
  build_agent_prompt_pure.2 _ _ "act" [("k", "v")] "ctx" rfl rfl rfl rfl

end StoryMaster
